import Mathlib

/-!
Verification of the DHP (Dynamic Hazard Pointer) SMR core of libcds,
shallowly embedded from `src/dhp.cpp`.  The per-thread data structures
(`retired_array`, hazard arrays) live in the header `cds/gc/dhp_smr.h`,
which is not part of the sources; their operations are modelled from the
specification and marked as such.  Pointers are modelled as natural
numbers (0 is the null pointer / the null thread id); a deleter call
`p->free()` is modelled by emitting the retired pointer into a `freed`
list.  The model is sequential: atomic loads return the current value and
CAS operations succeed.
-/

namespace Dhp

/-- Capacity of a retired block.  Modelled from the spec: `retired_block::c_capacity`
is a fixed implementation constant of the header (256). -/
def c_capacity : Nat := 256

/-- `defaults::c_extended_guard_block_size` (dhp.cpp line 51): 16 hazard slots per guard block. -/
def c_extended_guard_block_size : Nat := 16

/-- Retired pointer: the raw address `m_p` together with its deleter `pFunc`
(an opaque function pointer, modelled as a number). -/
structure retired_ptr where
  m_p : Nat
  pFunc : Nat
deriving DecidableEq

/-- Element `n` of a list, with an explicit default (as `List.getD`). -/
def nthD {α : Type} : List α → Nat → α → α
  | [], _, d => d
  | a :: _, 0, _ => a
  | _ :: t, n + 1, d => nthD t n d

/-- Replace element `n` of a list (as `List.set`); out-of-range indices leave the list unchanged. -/
def updNth {α : Type} : List α → Nat → α → List α
  | [], _, _ => []
  | _ :: t, 0, b => b :: t
  | a :: t, n + 1, b => a :: updNth t n b

/-- Read the cell `i` of retired block `b`. -/
def getCell (blocks : List (List retired_ptr)) (b i : Nat) : retired_ptr :=
  nthD (nthD blocks b []) i ⟨0, 0⟩

/-- Write the cell `i` of retired block `b`. -/
def setCell (blocks : List (List retired_ptr)) (b i : Nat) (p : retired_ptr) :
    List (List retired_ptr) :=
  updNth blocks b (updNth (nthD blocks b []) i p)

/-- Per-thread retired array.  Modelled from the spec: a singly-linked non-empty
list of retired blocks with cursors `current_block_` (a block index standing for
the block pointer) and `current_cell_` (a cell index within the current block;
`c_capacity` stands for the one-past-the-end pointer `current_block_->last()`),
plus the block counter `block_count_`.  `list_head_` is block index 0 and
`list_tail_` is the last block of the list. -/
structure retired_array where
  blocks : List (List retired_ptr)
  current_block_ : Nat
  current_cell_ : Nat
  block_count_ : Nat
deriving DecidableEq

/-- Flat position of the write cursor, counting cells from `list_head_.first()`. -/
def retired_array.pos (r : retired_array) : Nat :=
  r.current_block_ * c_capacity + r.current_cell_

/-- Total number of cells in the block list. -/
def retired_array.total_capacity (r : retired_array) : Nat :=
  r.blocks.length * c_capacity

/-- Well-formedness of a retired array: non-empty block list, every block of
full capacity, the cursor inside the block list with `current_cell_ = c_capacity`
(the parked `last()` position after an overflowing push) only at the tail,
and `block_count_` tracking the list length. -/
def retired_array.wf (r : retired_array) : Prop :=
  0 < r.blocks.length ∧
  (∀ b ∈ r.blocks, b.length = c_capacity) ∧
  r.current_block_ < r.blocks.length ∧
  r.current_cell_ ≤ c_capacity ∧
  (r.current_cell_ = c_capacity → r.current_block_ + 1 = r.blocks.length) ∧
  r.block_count_ = r.blocks.length

instance (r : retired_array) : Decidable r.wf := by
  unfold retired_array.wf
  infer_instance

/-- Modelled from the spec: `push` appends at `current_cell_` and advances the
cursor; it returns `false` iff `current_block_` is the tail and the new
`current_cell_` has reached the block's end (the pointer is stored even then;
the caller must run a `scan` before pushing again). -/
def retired_array.push (r : retired_array) (p : retired_ptr) : retired_array × Bool :=
  let blocks := setCell r.blocks r.current_block_ r.current_cell_ p
  let cell := r.current_cell_ + 1
  if cell = c_capacity then
    if r.current_block_ + 1 = r.blocks.length then
      ({ r with blocks := blocks, current_cell_ := cell }, false)
    else
      ({ r with blocks := blocks, current_block_ := r.current_block_ + 1, current_cell_ := 0 },
       true)
  else
    ({ r with blocks := blocks, current_cell_ := cell }, true)

/-- Modelled from the spec: `safe_push` is the push used by `scan` to re-insert
survivors into the freshly-rewound array; it must succeed without overflow
because the rewound cursors sit at or behind their originals. -/
def retired_array.safe_push (r : retired_array) (p : retired_ptr) : retired_array :=
  (r.push p).1

/-- Modelled from the spec: `fini` resets the cursors to
`list_head_.first()`; live cells are logically discarded. -/
def retired_array.fini (r : retired_array) : retired_array :=
  { r with current_block_ := 0, current_cell_ := 0 }

/-- Modelled from the spec: `init` performs the same reset at attach time. -/
def retired_array.init (r : retired_array) : retired_array :=
  r.fini

/-- Modelled from the spec: `empty` is true iff no cells are live, i.e. the
cursor sits at `list_head_.first()`. -/
def retired_array.empty (r : retired_array) : Bool :=
  r.current_block_ == 0 && r.current_cell_ == 0

/-- A freshly allocated retired block (cell contents are never read before
being written). -/
def empty_block : List retired_ptr :=
  List.replicate c_capacity ⟨0, 0⟩

/-- Modelled from the spec: `extend` appends a newly allocated retired block at
the tail and increments `block_count_`; it is called only when the cursor is
parked at the full tail, and by the cursor invariant of §4.C the new block
becomes the current block with `current_cell_` at its first cell. -/
def retired_array.extend (r : retired_array) : retired_array :=
  { blocks := r.blocks ++ [empty_block],
    current_block_ := r.blocks.length,
    current_cell_ := 0,
    block_count_ := r.block_count_ + 1 }

/-- The live retirees of a retired array: every cell of every block strictly
before `current_block_`, then the cells of `current_block_` strictly before
`current_cell_`.  This is literally the traversal the `smr` destructor performs
(dhp.cpp lines 214-221). -/
def retired_array.live_cells (r : retired_array) : List retired_ptr :=
  ((List.range r.current_block_).flatMap
      (fun b => (List.range c_capacity).map (fun i => getCell r.blocks b i)))
    ++ (List.range r.current_cell_).map (fun i => getCell r.blocks r.current_block_ i)

/-- Per-thread hazard array.  Modelled from the spec: the initial contiguous
array `array_` of `initial_capacity_` slots (the list length) plus the chain of
extended guard blocks; slot value 0 is the null pointer. -/
structure thread_hazards where
  array_ : List Nat
  extended_list_ : List (List Nat)
deriving DecidableEq

/-- Modelled from the spec: `clear` nulls every hazard slot at detach time;
the extended blocks are retained until SMR teardown. -/
def thread_hazards.clear (h : thread_hazards) : thread_hazards :=
  { array_ := List.replicate h.array_.length 0,
    extended_list_ := h.extended_list_.map (fun b => List.replicate b.length 0) }

/-- `smr::thread_record` (dhp.cpp lines 140-150): the per-thread data
(hazard array + retired array) with the registry fields `m_idOwner`
(0 is `cds::OS::c_NullThreadId`) and `m_bFree`.  The `m_pNextNode` link is
the position in the registry list. -/
structure thread_record where
  hazards_ : thread_hazards
  retired_ : retired_array
  m_idOwner : Nat
  m_bFree : Bool
deriving DecidableEq

/-- The SMR singleton state: the registry `thread_list_` (head first), the
initial per-thread hazard count and the scan buffer size hint. -/
structure smr where
  thread_list_ : List thread_record
  initial_hazard_count_ : Nat
  last_plist_size_ : Nat
deriving DecidableEq

/-- Placeholder record returned when reading past the end of the registry
(never reached under the index bounds carried by the theorems). -/
def dummy_record : thread_record :=
  { hazards_ := { array_ := [], extended_list_ := [] },
    retired_ := { blocks := [empty_block], current_block_ := 0, current_cell_ := 0,
                  block_count_ := 1 },
    m_idOwner := 0,
    m_bFree := true }

/-- The registry record at index `i`. -/
def record_at (s : smr) (i : Nat) : thread_record :=
  nthD s.thread_list_ i dummy_record

/-- Replace the registry record at index `i`. -/
def set_record (s : smr) (i : Nat) (t : thread_record) : smr :=
  { s with thread_list_ := updNth s.thread_list_ i t }

/-- `smr::smr` (dhp.cpp lines 189-193): the constructor stores
`nInitialHazardPtrCount < 4 ? 16 : nInitialHazardPtrCount` and presizes the
scan buffer hint to 64 slots per hazard. -/
def smr.mk_new (n : Nat) : smr :=
  { thread_list_ := [],
    initial_hazard_count_ := if n < 4 then 16 else n,
    last_plist_size_ := (if n < 4 then 16 else n) * 64 }

/-- `smr::construct` (dhp.cpp lines 170-175): create the singleton unless it
already exists. -/
def smr.construct (inst : Option smr) (n : Nat) : Option smr :=
  match inst with
  | none => some (smr.mk_new n)
  | some s => some s

/-- `copy_hazards` (dhp.cpp lines 358-365): append every non-null slot of a
hazard slot array to the vector. -/
def copy_hazards (vect : List Nat) (arr : List Nat) : List Nat :=
  arr.foldl (fun v hp => if hp ≠ 0 then v ++ [hp] else v) vect

/-- Stage 1 of `scan` for one registry record (dhp.cpp lines 398-403): the
initial hazard array followed by every chained guard block. -/
def collect_record_hazards (vect : List Nat) (n : thread_record) : List Nat :=
  n.hazards_.extended_list_.foldl (fun v b => copy_hazards v b)
    (copy_hazards vect n.hazards_.array_)

/-- Stage 1 of `scan` (dhp.cpp lines 395-406): walk the registry and collect
the hazards of every record whose owner id is not the null thread id. -/
def collect_hazards (records : List thread_record) : List Nat :=
  records.foldl (fun v n => if n.m_idOwner ≠ 0 then collect_record_hazards v n else v) []

/-- `std::sort` on the hazard vector (dhp.cpp line 413); on a linear order the
sorted permutation is unique, so insertion sort is extensionally the sort. -/
def sort_hazards (l : List Nat) : List Nat :=
  List.insertionSort (· ≤ ·) l

/-- `std::binary_search` (dhp.cpp line 374) via `std::lower_bound` semantics:
find the first element not below `x` and compare; on a sorted range this
decides membership. -/
def binary_search (l : List Nat) (x : Nat) : Bool :=
  match l.dropWhile (fun y => decide (y < x)) with
  | [] => false
  | y :: _ => decide (¬ x < y)

/-- The state threaded through Stage 2 of `scan`: the retired array being
swept, the list of pointers whose deleter was invoked (`p->free()`), and a
ghost flag recording that every `safe_push` so far wrote inside the array's
capacity (the spec's requirement that `safe_push` succeed without overflow). -/
structure scan_state where
  arr : retired_array
  freed : List retired_ptr
  ok : Bool
deriving DecidableEq

/-- One iteration of the loop body of `retire_data` (dhp.cpp lines 373-380):
a retired pointer found in the hazard list is re-inserted with `safe_push`,
otherwise its deleter is invoked. -/
def sweep_cell (plist : List Nat) (st : scan_state) (b i : Nat) : scan_state :=
  let p := getCell st.arr.blocks b i
  if binary_search plist p.m_p then
    { st with arr := st.arr.safe_push p,
              ok := st.ok && decide (st.arr.pos < st.arr.total_capacity) }
  else
    { st with freed := st.freed ++ [p] }

/-- `retire_data` (dhp.cpp lines 367-383): sweep the first `size` cells of
block `b` against the sorted hazard list. -/
def retire_data (plist : List Nat) (st : scan_state) (b size : Nat) : scan_state :=
  (List.range size).foldl (fun s i => sweep_cell plist s b i) st

/-- The Stage 2 block loop of `scan` (dhp.cpp lines 423-431): sweep every block
from `list_head_` up to the saved current block, the final block only up to the
saved current cell. -/
def sweep_blocks (plist : List Nat) (st : scan_state) (last_block last_cell : Nat) :
    scan_state :=
  (List.range (last_block + 1)).foldl
    (fun s b => retire_data plist s b (if b = last_block then last_cell else c_capacity)) st

/-- Reading a cell by its flat position (block `q / c_capacity`,
cell `q % c_capacity`). -/
def getFlat (blocks : List (List retired_ptr)) (q : Nat) : retired_ptr :=
  getCell blocks (q / c_capacity) (q % c_capacity)

/-- `sweep_cell` addressed by flat position: the Stage 2 sweep visits the live
cells in flat order, which this form makes explicit. -/
def sweep_cell_flat (plist : List Nat) (st : scan_state) (q : Nat) : scan_state :=
  let p := getFlat st.arr.blocks q
  if binary_search plist p.m_p then
    { st with arr := st.arr.safe_push p,
              ok := st.ok && decide (st.arr.pos < st.arr.total_capacity) }
  else
    { st with freed := st.freed ++ [p] }

/-- The Stage 2 sweep over `n` consecutive flat positions starting at `q`. -/
def flat_sweep (plist : List Nat) (st : scan_state) (q n : Nat) : scan_state :=
  (List.range n).foldl (fun s j => sweep_cell_flat plist s (q + j)) st

/-- The sorted hazard list a `scan` of state `s` works with (Stage 1 followed
by `std::sort`, dhp.cpp lines 395-413). -/
def scan_plist (s : smr) : List Nat :=
  sort_hazards (collect_hazards s.thread_list_)

/-- The Stage 2 sweep of `scan` (dhp.cpp lines 416-431): save the cursors of
the scanned record, rewind them to `list_head_.first()` and sweep the saved
live range against the sorted hazard list. -/
def scan_sweep (s : smr) (idx : Nat) : scan_state :=
  sweep_blocks (scan_plist s)
    { arr := { (record_at s idx).retired_ with current_block_ := 0, current_cell_ := 0 },
      freed := [], ok := true }
    (record_at s idx).retired_.current_block_
    (record_at s idx).retired_.current_cell_

/-- `smr::scan` (dhp.cpp lines 387-436) on the record at index `idx`:
Stage 1 collects and sorts the hazards and bumps `last_plist_size_`;
Stage 2 saves the cursors, rewinds them to `list_head_.first()`, sweeps the
live range, and finally extends the array when nothing was freed and the
saved cursor sat at the full tail.  Returns the new state and the list of
pointers freed (deleter invocations, in order). -/
def smr.scan (s : smr) (idx : Nat) : smr × List retired_ptr :=
  let plist0 := collect_hazards s.thread_list_
  let new_plist_size :=
    if plist0.length > s.last_plist_size_ then plist0.length else s.last_plist_size_
  let st := scan_sweep s idx
  let arr1 :=
    if st.freed.length = 0
        ∧ (record_at s idx).retired_.current_block_ + 1 = st.arr.blocks.length
        ∧ (record_at s idx).retired_.current_cell_ = c_capacity
    then st.arr.extend else st.arr
  (set_record { s with last_plist_size_ := new_plist_size } idx
     { (record_at s idx) with retired_ := arr1 },
   st.freed)

/-- Push one migrated retired pointer into the destination record's retired
array (dhp.cpp line 472), returning the updated state and `push`'s result. -/
def push_step (s : smr) (idx : Nat) (p : retired_ptr) : smr × Bool :=
  let dest := (record_at s idx).retired_
  let res := dest.push p
  (set_record s idx { (record_at s idx) with retired_ := res.1 }, res.2)

/-- State threaded through the migration loop of `help_scan`: the SMR state,
the pointers freed by overflow-triggered scans, the ghost list of pointers
pushed into the destination, and the break flag of the block loop. -/
structure migrate_state where
  s : smr
  freed : List retired_ptr
  pushed : List retired_ptr
  done : Bool
deriving DecidableEq

/-- One migrated cell (dhp.cpp lines 471-474): `dest.push(*p)`; when push
reports overflow (the pointer is stored nonetheless), run `scan` on the
destination record.  There is no retry. -/
def migrate_cell (idx i b : Nat) (ms : migrate_state) (j : Nat) : migrate_state :=
  let p := getCell (record_at ms.s i).retired_.blocks b j
  let r := push_step ms.s idx p
  if r.2 then { ms with s := r.1, pushed := ms.pushed ++ [p] }
  else
    let sc := smr.scan r.1 idx
    { ms with s := sc.1, freed := ms.freed ++ sc.2, pushed := ms.pushed ++ [p] }

/-- One block of the migration loop (dhp.cpp lines 469-478): compute the end
cell (`current_cell_` for the current block, `last()` otherwise), migrate the
cells, and stop after the source's current block. -/
def migrate_block (idx i : Nat) (ms : migrate_state) (b : Nat) : migrate_state :=
  if ms.done then ms
  else
    let src := (record_at ms.s i).retired_
    let last := if b = src.current_block_ then src.current_cell_ else c_capacity
    let ms1 := (List.range last).foldl (fun m j => migrate_cell idx i b m j) ms
    { ms1 with done := b = (record_at ms1.s i).retired_.current_block_ }

/-- The whole migration of record `i` into record `idx` (dhp.cpp lines 466-478). -/
def help_scan_migrate (s : smr) (i idx : Nat) : migrate_state :=
  (List.range (record_at s i).retired_.blocks.length).foldl
    (fun ms b => migrate_block idx i ms b)
    { s := s, freed := [], pushed := [], done := false }

/-- Modelled from the spec (§4.F `help_scan`, step 3): "If `push` returns false
(dest overflow), call `scan(r)` and retry."  Identical to `migrate_cell` except
that after the overflow-triggered scan the push is retried, as the spec
prescribes.  Used to compare the spec's reading against the source. -/
def migrate_cell_retry (idx i b : Nat) (ms : migrate_state) (j : Nat) : migrate_state :=
  let p := getCell (record_at ms.s i).retired_.blocks b j
  let r := push_step ms.s idx p
  if r.2 then { ms with s := r.1, pushed := ms.pushed ++ [p] }
  else
    let sc := smr.scan r.1 idx
    let r2 := push_step sc.1 idx p
    { ms with s := r2.1, freed := ms.freed ++ sc.2, pushed := ms.pushed ++ [p, p] }

/-- The migration block loop built on the spec's retrying cell step. -/
def migrate_block_retry (idx i : Nat) (ms : migrate_state) (b : Nat) : migrate_state :=
  if ms.done then ms
  else
    let src := (record_at ms.s i).retired_
    let last := if b = src.current_block_ then src.current_cell_ else c_capacity
    let ms1 := (List.range last).foldl (fun m j => migrate_cell_retry idx i b m j) ms
    { ms1 with done := b = (record_at ms1.s i).retired_.current_block_ }

/-- The whole migration as the spec words it (scan-and-retry on overflow). -/
def help_scan_migrate_retry (s : smr) (i idx : Nat) : migrate_state :=
  (List.range (record_at s i).retired_.blocks.length).foldl
    (fun ms b => migrate_block_retry idx i ms b)
    { s := s, freed := [], pushed := [], done := false }

/-- The body of `help_scan`'s registry loop for record `i` (dhp.cpp lines
444-483): skip free records; claim records whose owner is null or dead (the
CAS succeeds in the sequential model); migrate the retirees into record `idx`;
then reset the source array and publish the record as free and unowned.
Returns the new state, the pointers freed by overflow scans, and the ghost
list of migrated pointers. -/
def help_scan_record (s : smr) (i idx curId : Nat) (alive : Nat → Bool) :
    smr × List retired_ptr × List retired_ptr :=
  let h := record_at s i
  if h.m_bFree then (s, [], [])
  else if h.m_idOwner = 0 ∨ alive h.m_idOwner = false then
    let s1 := set_record s i { h with m_idOwner := curId }
    let ms := help_scan_migrate s1 i idx
    let h1 := record_at ms.s i
    let s2 := set_record ms.s i
      { h1 with retired_ := h1.retired_.fini, m_bFree := true, m_idOwner := 0 }
    (s2, ms.freed, ms.pushed)
  else (s, [], [])

/-- `smr::help_scan` (dhp.cpp lines 438-486): process every registry record,
then scan the calling thread's record. -/
def smr.help_scan (s : smr) (idx curId : Nat) (alive : Nat → Bool) : smr × List retired_ptr :=
  let r := (List.range s.thread_list_.length).foldl
    (fun (acc : smr × List retired_ptr) i =>
      let one := help_scan_record acc.1 i idx curId alive
      (one.1, acc.2 ++ one.2.1))
    (s, [])
  let sc := smr.scan r.1 idx
  (sc.1, r.2 ++ sc.2)

/-- The first half of `smr::free_thread_data` (dhp.cpp lines 330-332):
clear the hazard slots, scan, help-scan.  Split out so that the branch on
`retired_.empty()` can be stated about this intermediate state. -/
def smr.free_thread_data_mid (s : smr) (idx curId : Nat) (alive : Nat → Bool) :
    smr × List retired_ptr :=
  let h := record_at s idx
  let s0 := set_record s idx { h with hazards_ := h.hazards_.clear }
  let r1 := smr.scan s0 idx
  let r2 := smr.help_scan r1.1 idx curId alive
  (r2.1, r1.2 ++ r2.2)

/-- `smr::free_thread_data` (dhp.cpp lines 325-353): after the scans, either
reset the now-empty retired array and mark the record free, or return the
spare empty blocks after `current_block_` to the retired-block allocator
(decrementing `block_count_` once per freed block); finally store the null
thread id into the owner field. -/
def smr.free_thread_data (s : smr) (idx curId : Nat) (alive : Nat → Bool) :
    smr × List retired_ptr :=
  let m := smr.free_thread_data_mid s idx curId alive
  let h2 := record_at m.1 idx
  let s3 :=
    if h2.retired_.empty then
      set_record m.1 idx { h2 with retired_ := h2.retired_.fini, m_bFree := true }
    else
      let dropped := h2.retired_.blocks.length - (h2.retired_.current_block_ + 1)
      set_record m.1 idx
        { h2 with retired_ :=
            { h2.retired_ with
                blocks := h2.retired_.blocks.take (h2.retired_.current_block_ + 1),
                block_count_ := h2.retired_.block_count_ - dropped } }
  let h3 := record_at s3 idx
  (set_record s3 idx { h3 with m_idOwner := 0 }, m.2)

/-- The record finalisation the destructor performs before destroying a record
(dhp.cpp lines 222-226): `retired_.fini()`, `hazards_.clear()`,
`m_bFree = true`. -/
def dtor_process_record (t : thread_record) : thread_record :=
  { t with retired_ := t.retired_.fini, hazards_ := t.hazards_.clear, m_bFree := true }

/-- `smr::~smr` (dhp.cpp lines 195-229): reset the registry head, then walk the
old registry; for each record invoke the deleter of every live retiree (full
blocks strictly before `current_block_`, then `current_block_` up to
`current_cell_`), finalise and destroy the record.  Returns the emptied state
and the deleter invocations in order. -/
def smr.dtor (s : smr) : smr × List retired_ptr :=
  ({ s with thread_list_ := [] },
   s.thread_list_.flatMap (fun t => t.retired_.live_cells))

/-- `smr::detach_all_thread` (dhp.cpp lines 246-257): free the thread data of
every registry record whose owner id is not the null thread id. -/
def smr.detach_all_thread (s : smr) (curId : Nat) (alive : Nat → Bool) :
    smr × List retired_ptr :=
  (List.range s.thread_list_.length).foldl
    (fun (acc : smr × List retired_ptr) i =>
      if (record_at acc.1 i).m_idOwner ≠ 0 then
        let r := smr.free_thread_data acc.1 i curId alive
        (r.1, acc.2 ++ r.2)
      else acc)
    (s, [])

/-- `smr::destruct` (dhp.cpp lines 177-187): a no-op when the singleton does
not exist; otherwise optionally detach all threads, run the destructor, free
the singleton and null the instance pointer. -/
def smr.destruct (inst : Option smr) (bDetachAll : Bool) (curId : Nat) (alive : Nat → Bool) :
    Option smr × List retired_ptr :=
  match inst with
  | none => (none, [])
  | some s =>
    let r1 := if bDetachAll then s.detach_all_thread curId alive else (s, [])
    let r2 := smr.dtor r1.1
    (none, r1.2 ++ r2.2)

/-- The cells of a block list at the `n` consecutive flat positions starting
at `q` (the order in which Stage 2 visits the live range). -/
def cells_of (B : List (List retired_ptr)) (q n : Nat) : List retired_ptr :=
  (List.range n).map (fun j => getFlat B (q + j))

/-- The process-wide state seen by one thread: the SMR singleton and this
thread's thread-local handle `tls_` (the index of its registry record;
`none` is the null pointer). -/
structure proc_state where
  inst : smr
  tls_ : Option Nat
deriving DecidableEq

/-- `smr::tls` (dhp.cpp lines 152-156): `assert(tls_ != nullptr)` and return
it; the error value models the assertion failure on a null handle. -/
def smr.tls (t : Option Nat) : Except Unit Nat :=
  match t with
  | none => Except.error ()
  | some r => Except.ok r

/-- `smr::detach_thread` (dhp.cpp lines 237-244): when a record is attached,
null the thread-local handle first and only then run `free_thread_data` on
the saved record. -/
def smr.detach_thread (ps : proc_state) (curId : Nat) (alive : Nat → Bool) :
    proc_state × List retired_ptr :=
  match ps.tls_ with
  | none => (ps, [])
  | some idx =>
    let mid : proc_state := { ps with tls_ := none }
    let r := smr.free_thread_data mid.inst idx curId alive
    ({ inst := r.1, tls_ := none }, r.2)

/-! ### Concrete states used by the witnesses -/

/-- A one-record registry: the owner thread 5 hazards address 10; the record's
retired array holds the two live retirees (10, deleter 1) and (20, deleter 2). -/
def wit_reg1 : smr :=
  { thread_list_ :=
      [{ hazards_ := { array_ := [10, 0], extended_list_ := [] },
         retired_ :=
           { blocks := [updNth (updNth empty_block 0 ⟨10, 1⟩) 1 ⟨20, 2⟩],
             current_block_ := 0, current_cell_ := 2, block_count_ := 1 },
         m_idOwner := 5, m_bFree := false }],
    initial_hazard_count_ := 16, last_plist_size_ := 1024 }

/-- A one-record registry whose retired array is completely full (the cursor is
parked at the tail's `last()`) and whose every retiree is hazarded (address 1),
so that a scan frees nothing and must extend. -/
def wit_reg_full : smr :=
  { thread_list_ :=
      [{ hazards_ := { array_ := [1], extended_list_ := [] },
         retired_ :=
           { blocks := [List.replicate c_capacity ⟨1, 0⟩],
             current_block_ := 0, current_cell_ := c_capacity, block_count_ := 1 },
         m_idOwner := 5, m_bFree := false }],
    initial_hazard_count_ := 16, last_plist_size_ := 1024 }

/-- A two-record registry for exercising the migration path of `help_scan`:
record 0 (the caller, owner thread 5) has a nearly full retired array with one
free cell left and no hazards; record 1 is an orphan (null owner) holding one
live retiree (7, deleter 1).  Migrating that retiree overflows the
destination and triggers the overflow scan. -/
def wit_cex : smr :=
  { thread_list_ :=
      [{ hazards_ := { array_ := [], extended_list_ := [] },
         retired_ :=
           { blocks := [List.replicate c_capacity ⟨1, 0⟩],
             current_block_ := 0, current_cell_ := c_capacity - 1, block_count_ := 1 },
         m_idOwner := 5, m_bFree := false },
       { hazards_ := { array_ := [], extended_list_ := [] },
         retired_ :=
           { blocks := [updNth empty_block 0 ⟨7, 1⟩],
             current_block_ := 0, current_cell_ := 1, block_count_ := 1 },
         m_idOwner := 0, m_bFree := false }],
    initial_hazard_count_ := 16, last_plist_size_ := 4 }

/-- A two-record registry with an orphaned record: record 0 (the caller,
owner thread 5) has an empty retired array; record 1 is unowned, not free, and
holds one live retiree (7, deleter 1). -/
def wit_orph : smr :=
  { thread_list_ :=
      [{ hazards_ := { array_ := [], extended_list_ := [] },
         retired_ :=
           { blocks := [empty_block],
             current_block_ := 0, current_cell_ := 0, block_count_ := 1 },
         m_idOwner := 5, m_bFree := false },
       { hazards_ := { array_ := [], extended_list_ := [] },
         retired_ :=
           { blocks := [updNth empty_block 0 ⟨7, 1⟩],
             current_block_ := 0, current_cell_ := 1, block_count_ := 1 },
         m_idOwner := 0, m_bFree := false }],
    initial_hazard_count_ := 16, last_plist_size_ := 4 }

/-- A registry with an extended guard block, for the Stage 1 witness:
record 0 is owned (thread 5), hazards 10 in its initial array and 33 in slot 3
of its single full guard block; record 1 is unowned and contributes nothing
despite its non-null slot. -/
def wit_ext : smr :=
  { thread_list_ :=
      [{ hazards_ := { array_ := [10, 0],
                       extended_list_ := [updNth (List.replicate 16 0) 3 33] },
         retired_ := { blocks := [empty_block], current_block_ := 0,
                       current_cell_ := 0, block_count_ := 1 },
         m_idOwner := 5, m_bFree := false },
       { hazards_ := { array_ := [77], extended_list_ := [] },
         retired_ := { blocks := [empty_block], current_block_ := 0,
                       current_cell_ := 0, block_count_ := 1 },
         m_idOwner := 0, m_bFree := true }],
    initial_hazard_count_ := 16, last_plist_size_ := 4 }

/-! ### Basic list lemmas -/

theorem length_updNth {α : Type} : ∀ (l : List α) (n : Nat) (a : α),
    (updNth l n a).length = l.length := by
  intro l
  induction l with
  | nil => intro n a; rfl
  | cons x t ih =>
    intro n a
    cases n with
    | zero => rfl
    | succ m => simp [updNth, ih]

theorem updNth_of_length_le {α : Type} : ∀ (l : List α) (n : Nat) (a : α),
    l.length ≤ n → updNth l n a = l := by
  intro l
  induction l with
  | nil => intro n a _; rfl
  | cons x t ih =>
    intro n a h
    cases n with
    | zero => simp at h
    | succ m => simp [updNth]; exact ih m a (by simpa using h)

theorem nthD_updNth_self {α : Type} : ∀ (l : List α) (n : Nat) (a d : α),
    n < l.length → nthD (updNth l n a) n d = a := by
  intro l
  induction l with
  | nil => intro n a d h; simp at h
  | cons x t ih =>
    intro n a d h
    cases n with
    | zero => rfl
    | succ m => exact ih m a d (by simpa using h)

theorem nthD_updNth_ne {α : Type} : ∀ (l : List α) (n m : Nat) (a d : α),
    m ≠ n → nthD (updNth l n a) m d = nthD l m d := by
  intro l
  induction l with
  | nil => intro n m a d _; rfl
  | cons x t ih =>
    intro n m a d h
    cases n with
    | zero =>
      cases m with
      | zero => exact absurd rfl h
      | succ k => rfl
    | succ n' =>
      cases m with
      | zero => rfl
      | succ k => exact ih n' k a d (by omega)

theorem mem_updNth {α : Type} : ∀ (l : List α) (n : Nat) (a b : α),
    b ∈ updNth l n a → b = a ∨ b ∈ l := by
  intro l
  induction l with
  | nil => intro n a b h; simp [updNth] at h
  | cons x t ih =>
    intro n a b h
    cases n with
    | zero =>
      rcases List.mem_cons.mp h with h | h
      · exact Or.inl h
      · exact Or.inr (List.mem_cons_of_mem _ h)
    | succ m =>
      rcases List.mem_cons.mp h with h | h
      · exact Or.inr (h ▸ List.mem_cons_self _ _)
      · rcases ih m a b h with h | h
        · exact Or.inl h
        · exact Or.inr (List.mem_cons_of_mem _ h)

theorem nthD_mem {α : Type} : ∀ (l : List α) (n : Nat) (d : α),
    n < l.length → nthD l n d ∈ l := by
  intro l
  induction l with
  | nil => intro n d h; simp at h
  | cons x t ih =>
    intro n d h
    cases n with
    | zero => exact List.mem_cons_self _ _
    | succ m => exact List.mem_cons_of_mem _ (ih m d (by simpa using h))

theorem nthD_append_left {α : Type} : ∀ (l l2 : List α) (n : Nat) (d : α),
    n < l.length → nthD (l ++ l2) n d = nthD l n d := by
  intro l
  induction l with
  | nil => intro l2 n d h; simp at h
  | cons x t ih =>
    intro l2 n d h
    cases n with
    | zero => rfl
    | succ m => exact ih l2 m d (by simpa using h)

/-! ### Flat-position arithmetic and cell access -/

theorem c_capacity_eq : c_capacity = 256 := rfl

theorem c_capacity_pos : 0 < c_capacity := by
  rw [c_capacity_eq]; omega

theorem flat_div (b i : Nat) (h : i < c_capacity) :
    (b * c_capacity + i) / c_capacity = b := by
  rw [c_capacity_eq] at h ⊢; omega

theorem flat_mod (b i : Nat) (h : i < c_capacity) :
    (b * c_capacity + i) % c_capacity = i := by
  rw [c_capacity_eq] at h ⊢; omega

theorem flat_split (q : Nat) :
    q / c_capacity * c_capacity + q % c_capacity = q := by
  rw [c_capacity_eq]; omega

theorem length_setCell (B : List (List retired_ptr)) (b i : Nat) (p : retired_ptr) :
    (setCell B b i p).length = B.length := by
  unfold setCell; exact length_updNth _ _ _

theorem blocklen_setCell (B : List (List retired_ptr)) (b i : Nat) (p : retired_ptr)
    (h : ∀ bb ∈ B, bb.length = c_capacity) :
    ∀ bb ∈ setCell B b i p, bb.length = c_capacity := by
  by_cases hb : b < B.length
  · intro bb hbb
    rcases mem_updNth _ _ _ _ hbb with h1 | h1
    · subst h1
      rw [length_updNth]
      exact h _ (nthD_mem _ _ _ hb)
    · exact h _ h1
  · unfold setCell
    rw [updNth_of_length_le _ _ _ (by omega)]
    exact h

theorem getCell_setCell_self (B : List (List retired_ptr)) (b i : Nat) (p : retired_ptr)
    (hb : b < B.length) (hlen : (nthD B b []).length = c_capacity) (hi : i < c_capacity) :
    getCell (setCell B b i p) b i = p := by
  unfold getCell setCell
  rw [nthD_updNth_self _ _ _ _ hb]
  exact nthD_updNth_self _ _ _ _ (by omega)

theorem getCell_setCell_ne (B : List (List retired_ptr)) (b i b' i' : Nat) (p : retired_ptr)
    (h : b' ≠ b ∨ i' ≠ i) :
    getCell (setCell B b i p) b' i' = getCell B b' i' := by
  unfold getCell setCell
  rcases h with h | h
  · rw [nthD_updNth_ne _ _ _ _ _ h]
  · by_cases hb : b' = b
    · subst hb
      by_cases hlt : b' < B.length
      · rw [nthD_updNth_self _ _ _ _ hlt, nthD_updNth_ne _ _ _ _ _ h]
      · rw [updNth_of_length_le _ _ _ (by omega)]
    · rw [nthD_updNth_ne _ _ _ _ _ hb]

/-! ### The effect of one push on a well-formed retired array -/

theorem push_spec (r : retired_array) (p : retired_ptr)
    (hlen : ∀ bb ∈ r.blocks, bb.length = c_capacity)
    (hcb : r.current_block_ < r.blocks.length)
    (hcc : r.current_cell_ ≤ c_capacity)
    (hcan : r.current_cell_ = c_capacity → r.current_block_ + 1 = r.blocks.length)
    (hlt : r.pos < r.total_capacity) :
    (r.push p).1.blocks.length = r.blocks.length ∧
    (∀ bb ∈ (r.push p).1.blocks, bb.length = c_capacity) ∧
    (r.push p).1.current_block_ < r.blocks.length ∧
    (r.push p).1.current_cell_ ≤ c_capacity ∧
    ((r.push p).1.current_cell_ = c_capacity → (r.push p).1.current_block_ + 1 = r.blocks.length) ∧
    (r.push p).1.pos = r.pos + 1 ∧
    (r.push p).1.block_count_ = r.block_count_ ∧
    getFlat (r.push p).1.blocks r.pos = p ∧
    (∀ q, q ≠ r.pos → getFlat (r.push p).1.blocks q = getFlat r.blocks q) := by
  have hblk : (nthD r.blocks r.current_block_ []).length = c_capacity :=
    hlen _ (nthD_mem _ _ _ hcb)
  have hcclt : r.current_cell_ < c_capacity := by
    rcases Nat.lt_or_ge r.current_cell_ c_capacity with h | h
    · exact h
    · exfalso
      have he : r.current_cell_ = c_capacity := le_antisymm hcc h
      have h2 := hcan he
      unfold retired_array.pos retired_array.total_capacity at hlt
      rw [he, ← h2, Nat.succ_mul] at hlt
      omega
  have hB1 : (setCell r.blocks r.current_block_ r.current_cell_ p).length = r.blocks.length :=
    length_setCell _ _ _ _
  have hB2 : ∀ bb ∈ setCell r.blocks r.current_block_ r.current_cell_ p,
      bb.length = c_capacity :=
    blocklen_setCell _ _ _ _ hlen
  have hB3 : getFlat (setCell r.blocks r.current_block_ r.current_cell_ p) r.pos = p := by
    unfold getFlat retired_array.pos
    rw [flat_div _ _ hcclt, flat_mod _ _ hcclt]
    exact getCell_setCell_self _ _ _ _ hcb hblk hcclt
  have hB4 : ∀ q, q ≠ r.pos →
      getFlat (setCell r.blocks r.current_block_ r.current_cell_ p) q = getFlat r.blocks q := by
    intro q hq
    unfold getFlat
    apply getCell_setCell_ne
    by_contra hcon
    push_neg at hcon
    apply hq
    rw [← flat_split q, hcon.1, hcon.2]
    rfl
  by_cases h1 : r.current_cell_ + 1 = c_capacity
  · by_cases h2 : r.current_block_ + 1 = r.blocks.length
    · have hpush : r.push p
          = ({ r with blocks := setCell r.blocks r.current_block_ r.current_cell_ p,
                      current_cell_ := r.current_cell_ + 1 }, false) := by
        unfold retired_array.push
        rw [if_pos h1, if_pos h2]
      rw [hpush]
      refine ⟨hB1, hB2, hcb, ?_, fun _ => h2, ?_, rfl, hB3, hB4⟩
      · show r.current_cell_ + 1 ≤ c_capacity
        omega
      · show r.current_block_ * c_capacity + (r.current_cell_ + 1) = r.pos + 1
        unfold retired_array.pos
        omega
    · have hpush : r.push p
          = ({ r with blocks := setCell r.blocks r.current_block_ r.current_cell_ p,
                      current_block_ := r.current_block_ + 1, current_cell_ := 0 }, true) := by
        unfold retired_array.push
        rw [if_pos h1, if_neg h2]
      rw [hpush]
      refine ⟨hB1, hB2, ?_, Nat.zero_le _, ?_, ?_, rfl, hB3, hB4⟩
      · show r.current_block_ + 1 < r.blocks.length
        omega
      · show (0 : Nat) = c_capacity → _
        intro h0
        rw [c_capacity_eq] at h0
        omega
      · show (r.current_block_ + 1) * c_capacity + 0 = r.pos + 1
        unfold retired_array.pos
        rw [Nat.succ_mul]
        omega
  · have hpush : r.push p
        = ({ r with blocks := setCell r.blocks r.current_block_ r.current_cell_ p,
                    current_cell_ := r.current_cell_ + 1 }, true) := by
      unfold retired_array.push
      rw [if_neg h1]
    rw [hpush]
    refine ⟨hB1, hB2, hcb, ?_, fun h0 => absurd h0 h1, ?_, rfl, hB3, hB4⟩
    · show r.current_cell_ + 1 ≤ c_capacity
      omega
    · show r.current_block_ * c_capacity + (r.current_cell_ + 1) = r.pos + 1
      unfold retired_array.pos
      omega

/-! ### Binary search on a sorted list decides membership -/

theorem binary_search_eq_mem :
    ∀ (l : List Nat), List.Sorted (· ≤ ·) l → ∀ x, binary_search l x = decide (x ∈ l) := by
  intro l
  induction l with
  | nil => intro _ x; simp [binary_search]
  | cons a t ih =>
    intro hs x
    rw [List.sorted_cons] at hs
    by_cases hax : a < x
    · have hstep : binary_search (a :: t) x = binary_search t x := by
        simp [binary_search, List.dropWhile_cons, hax]
      rw [hstep, ih hs.2 x]
      have hne : ¬ x = a := by omega
      simp [hne]
    · have hstep : binary_search (a :: t) x = decide (¬ x < a) := by
        simp [binary_search, List.dropWhile_cons, hax]
      rw [hstep]
      by_cases hxa : x < a
      · have hxnotmem : ¬ x ∈ a :: t := by
          intro hmem
          rcases List.mem_cons.mp hmem with h | h
          · omega
          · have := hs.1 x h
            omega
        simp [hxa, hxnotmem]
      · have hxe : x = a := by omega
        subst hxe
        simp [hxa]

theorem binary_search_sort (l : List Nat) (x : Nat) :
    binary_search (sort_hazards l) x = decide (x ∈ l) := by
  unfold sort_hazards
  rw [binary_search_eq_mem _ (List.sorted_insertionSort _ l) x]
  simp [(List.perm_insertionSort (· ≤ ·) l).mem_iff]

/-! ### The flat form of the Stage 2 sweep -/

theorem flat_sweep_zero (plist : List Nat) (st : scan_state) (q : Nat) :
    flat_sweep plist st q 0 = st := rfl

theorem flat_sweep_succ (plist : List Nat) (st : scan_state) (q n : Nat) :
    flat_sweep plist st q (n + 1)
      = flat_sweep plist (sweep_cell_flat plist st q) (q + 1) n := by
  unfold flat_sweep
  rw [List.range_succ_eq_map, List.foldl_cons, List.foldl_map]
  have h0 : q + 0 = q := by omega
  rw [h0]
  apply List.foldl_ext
  intro s j _
  have : q + (j + 1) = q + 1 + j := by omega
  rw [this]

theorem cells_of_zero (B : List (List retired_ptr)) (q : Nat) : cells_of B q 0 = [] := rfl

theorem cells_of_succ (B : List (List retired_ptr)) (q n : Nat) :
    cells_of B q (n + 1) = getFlat B q :: cells_of B (q + 1) n := by
  unfold cells_of
  rw [List.range_succ_eq_map, List.map_cons, List.map_map]
  have h0 : q + 0 = q := by omega
  rw [h0]
  congr 1
  apply List.map_congr_left
  intro j _
  show getFlat B (q + (j + 1)) = getFlat B (q + 1 + j)
  have : q + (j + 1) = q + 1 + j := by omega
  rw [this]

/-! ### The master invariant of the Stage 2 sweep

Starting from a rewound state whose cells agree with the original blocks `B0`
beyond the write cursor, sweeping `n` cells starting at flat position `q`
re-inserts exactly the hazarded cells (in order), frees exactly the others
(in order), keeps the write cursor at or behind the read cursor, and keeps
every `safe_push` inside capacity. -/

theorem flat_sweep_spec (plist : List Nat) (B0 : List (List retired_ptr)) :
    ∀ (n q : Nat) (st : scan_state),
      st.arr.blocks.length = B0.length →
      (∀ bb ∈ st.arr.blocks, bb.length = c_capacity) →
      st.arr.current_block_ < B0.length →
      st.arr.current_cell_ ≤ c_capacity →
      (st.arr.current_cell_ = c_capacity → st.arr.current_block_ + 1 = B0.length) →
      st.arr.pos ≤ q →
      q + n ≤ B0.length * c_capacity →
      (∀ r, st.arr.pos ≤ r → getFlat st.arr.blocks r = getFlat B0 r) →
      st.ok = true →
      (flat_sweep plist st q n).arr.blocks.length = B0.length ∧
      (∀ bb ∈ (flat_sweep plist st q n).arr.blocks, bb.length = c_capacity) ∧
      (flat_sweep plist st q n).arr.current_block_ < B0.length ∧
      (flat_sweep plist st q n).arr.current_cell_ ≤ c_capacity ∧
      ((flat_sweep plist st q n).arr.current_cell_ = c_capacity →
        (flat_sweep plist st q n).arr.current_block_ + 1 = B0.length) ∧
      (flat_sweep plist st q n).arr.block_count_ = st.arr.block_count_ ∧
      (flat_sweep plist st q n).arr.pos
        = st.arr.pos + ((cells_of B0 q n).filter (fun p => binary_search plist p.m_p)).length ∧
      (flat_sweep plist st q n).arr.pos ≤ q + n ∧
      (∀ r, (flat_sweep plist st q n).arr.pos ≤ r →
        getFlat (flat_sweep plist st q n).arr.blocks r = getFlat B0 r) ∧
      (List.range (flat_sweep plist st q n).arr.pos).map
          (fun q2 => getFlat (flat_sweep plist st q n).arr.blocks q2)
        = (List.range st.arr.pos).map (fun q2 => getFlat st.arr.blocks q2)
            ++ (cells_of B0 q n).filter (fun p => binary_search plist p.m_p) ∧
      (flat_sweep plist st q n).freed
        = st.freed ++ (cells_of B0 q n).filter (fun p => !(binary_search plist p.m_p)) ∧
      (flat_sweep plist st q n).ok = true := by
  intro n
  induction n with
  | zero =>
    intro q st h1 h2 h3 h4 h5 h6 h7 h8 h9
    rw [flat_sweep_zero]
    refine ⟨h1, h2, h3, h4, h5, rfl, ?_, by omega, h8, ?_, ?_, h9⟩
    · rw [cells_of_zero]
      simp
    · rw [cells_of_zero]
      simp
    · rw [cells_of_zero]
      simp
  | succ m ih =>
    intro q st h1 h2 h3 h4 h5 h6 h7 h8 h9
    rw [flat_sweep_succ]
    have hq : getFlat st.arr.blocks q = getFlat B0 q := h8 q h6
    have hlt : st.arr.pos < st.arr.total_capacity := by
      unfold retired_array.total_capacity
      rw [h1]
      omega
    by_cases hmem : binary_search plist (getFlat st.arr.blocks q).m_p
    · have hstep : sweep_cell_flat plist st q
          = { st with arr := (st.arr.push (getFlat st.arr.blocks q)).1,
                      ok := st.ok && decide (st.arr.pos < st.arr.total_capacity) } := by
        unfold sweep_cell_flat retired_array.safe_push
        rw [if_pos hmem]
      rw [hstep]
      set st1 : scan_state :=
        { st with arr := (st.arr.push (getFlat st.arr.blocks q)).1,
                  ok := st.ok && decide (st.arr.pos < st.arr.total_capacity) } with hst1
      obtain ⟨p1, p2, p3, p4, p5, p6, p7, p8, p9⟩ :=
        push_spec st.arr (getFlat st.arr.blocks q) h2 (by omega) h4
          (fun hh => by rw [h1]; exact h5 hh) hlt
      have hmemB : binary_search plist (getFlat B0 q).m_p = true := by
        rw [← hq]; exact hmem
      have e1 : st1.arr.blocks.length = B0.length := by
        show (st.arr.push (getFlat st.arr.blocks q)).1.blocks.length = B0.length
        rw [p1, h1]
      have e3 : st1.arr.current_block_ < B0.length := by
        show (st.arr.push (getFlat st.arr.blocks q)).1.current_block_ < B0.length
        omega
      have e5 : st1.arr.current_cell_ = c_capacity → st1.arr.current_block_ + 1 = B0.length := by
        show (st.arr.push (getFlat st.arr.blocks q)).1.current_cell_ = c_capacity → _
        intro hh
        have := p5 hh
        show (st.arr.push (getFlat st.arr.blocks q)).1.current_block_ + 1 = B0.length
        omega
      have e6 : st1.arr.pos ≤ q + 1 := by
        show (st.arr.push (getFlat st.arr.blocks q)).1.pos ≤ q + 1
        omega
      have e8 : ∀ r, st1.arr.pos ≤ r → getFlat st1.arr.blocks r = getFlat B0 r := by
        intro r hr
        have hr2 : (st.arr.push (getFlat st.arr.blocks q)).1.pos ≤ r := hr
        rw [p6] at hr2
        show getFlat (st.arr.push (getFlat st.arr.blocks q)).1.blocks r = getFlat B0 r
        rw [p9 r (by omega)]
        exact h8 r (by omega)
      have e9 : st1.ok = true := by
        show (st.ok && decide (st.arr.pos < st.arr.total_capacity)) = true
        rw [h9, decide_eq_true hlt]
        rfl
      have f6 : st1.arr.pos = st.arr.pos + 1 := p6
      have hfiltM : (getFlat B0 q :: cells_of B0 (q + 1) m).filter
            (fun p => binary_search plist p.m_p)
          = getFlat B0 q
              :: (cells_of B0 (q + 1) m).filter (fun p => binary_search plist p.m_p) := by
        simp [List.filter_cons, hmemB]
      have hfiltN : (getFlat B0 q :: cells_of B0 (q + 1) m).filter
            (fun p => !(binary_search plist p.m_p))
          = (cells_of B0 (q + 1) m).filter (fun p => !(binary_search plist p.m_p)) := by
        simp [List.filter_cons, hmemB]
      obtain ⟨c1, c2, c3, c4, c5, c6, c7, c8, c9, c10, c11, c12⟩ :=
        ih (q + 1) st1 e1 p2 e3 p4 e5 e6 (by omega) e8 e9
      refine ⟨c1, c2, c3, c4, c5, ?_, ?_, ?_, c9, ?_, ?_, c12⟩
      · rw [c6]
        exact p7
      · rw [c7, cells_of_succ, hfiltM, List.length_cons, f6]
        omega
      · have := c8
        omega
      · rw [c10, cells_of_succ, hfiltM, f6, List.range_succ, List.map_append]
        have hmap : (List.range st.arr.pos).map (fun q2 => getFlat st1.arr.blocks q2)
            = (List.range st.arr.pos).map (fun q2 => getFlat st.arr.blocks q2) := by
          apply List.map_congr_left
          intro r hr
          have hrlt : r < st.arr.pos := List.mem_range.mp hr
          exact p9 r (by omega)
        rw [hmap]
        have hcell : ([st.arr.pos].map (fun q2 => getFlat st1.arr.blocks q2))
            = [getFlat B0 q] := by
          simp only [List.map_cons, List.map_nil]
          have hc2 : getFlat st1.arr.blocks st.arr.pos = getFlat B0 q := p8.trans hq
          rw [hc2]
        rw [hcell, List.append_assoc]
        rfl
      · rw [c11, cells_of_succ, hfiltN]
    · have hstep : sweep_cell_flat plist st q
          = { st with freed := st.freed ++ [getFlat st.arr.blocks q] } := by
        unfold sweep_cell_flat
        rw [if_neg hmem]
      rw [hstep]
      set st1 : scan_state := { st with freed := st.freed ++ [getFlat st.arr.blocks q] }
        with hst1
      have hmemB : binary_search plist (getFlat B0 q).m_p = false := by
        rw [← hq]
        exact Bool.eq_false_iff.mpr hmem
      have e6 : st1.arr.pos ≤ q + 1 := by
        show st.arr.pos ≤ q + 1
        omega
      have hfiltM : (getFlat B0 q :: cells_of B0 (q + 1) m).filter
            (fun p => binary_search plist p.m_p)
          = (cells_of B0 (q + 1) m).filter (fun p => binary_search plist p.m_p) := by
        simp [List.filter_cons, hmemB]
      have hfiltN : (getFlat B0 q :: cells_of B0 (q + 1) m).filter
            (fun p => !(binary_search plist p.m_p))
          = getFlat B0 q
              :: (cells_of B0 (q + 1) m).filter (fun p => !(binary_search plist p.m_p)) := by
        simp [List.filter_cons, hmemB]
      obtain ⟨c1, c2, c3, c4, c5, c6, c7, c8, c9, c10, c11, c12⟩ :=
        ih (q + 1) st1 h1 h2 h3 h4 h5 e6 (by omega) h8 h9
      refine ⟨c1, c2, c3, c4, c5, c6, ?_, ?_, c9, ?_, ?_, c12⟩
      · rw [c7, cells_of_succ, hfiltM]
      · have := c8
        omega
      · rw [c10, cells_of_succ, hfiltM]
      · rw [c11, cells_of_succ, hfiltN]
        show (st.freed ++ [getFlat st.arr.blocks q]) ++ _ = _
        rw [hq, List.append_assoc]
        rfl

/-! ### Bridging the block-shaped sweep to the flat sweep -/

theorem retire_data_eq_flat (plist : List Nat) (st : scan_state) (b size : Nat)
    (h : size ≤ c_capacity) :
    retire_data plist st b size = flat_sweep plist st (b * c_capacity) size := by
  unfold retire_data flat_sweep
  apply List.foldl_ext
  intro s i hi
  have hilt : i < c_capacity := lt_of_lt_of_le (List.mem_range.mp hi) h
  unfold sweep_cell sweep_cell_flat getFlat
  rw [flat_div b i hilt, flat_mod b i hilt]

theorem flat_sweep_add (plist : List Nat) (st : scan_state) (q m n : Nat) :
    flat_sweep plist st q (m + n) = flat_sweep plist (flat_sweep plist st q m) (q + m) n := by
  unfold flat_sweep
  rw [List.range_add m n, List.foldl_append, List.foldl_map]
  apply List.foldl_ext
  intro s j hj
  have harith : q + (m + j) = q + m + j := by omega
  rw [harith]

theorem sweep_blocks_eq_flat (plist : List Nat) :
    ∀ (lb : Nat) (st : scan_state) (lc : Nat), lc ≤ c_capacity →
      sweep_blocks plist st lb lc = flat_sweep plist st 0 (lb * c_capacity + lc) := by
  intro lb
  induction lb with
  | zero =>
    intro st lc hlc
    unfold sweep_blocks
    rw [List.range_succ]
    simp only [List.range_zero, List.nil_append, List.foldl_cons, List.foldl_nil]
    rw [if_pos True.intro]
    rw [retire_data_eq_flat plist st 0 lc hlc]
    have h0 : (0 : Nat) * c_capacity = 0 := by omega
    rw [h0]
    have h1 : (0 : Nat) + lc = lc := by omega
    rw [h1]
  | succ k ih =>
    intro st lc hlc
    unfold sweep_blocks
    rw [List.range_succ, List.foldl_append]
    have hpre : (List.range (k + 1)).foldl
          (fun s b => retire_data plist s b (if b = k + 1 then lc else c_capacity)) st
        = sweep_blocks plist st k c_capacity := by
      unfold sweep_blocks
      apply List.foldl_ext
      intro s b hb
      have hblt : b < k + 1 := List.mem_range.mp hb
      rw [if_neg (by omega), ite_self]
    rw [hpre, ih st c_capacity (le_refl _)]
    simp only [List.foldl_cons, List.foldl_nil]
    rw [if_pos True.intro]
    rw [retire_data_eq_flat plist _ (k + 1) lc hlc]
    rw [Nat.succ_mul]
    rw [flat_sweep_add plist st 0 (k * c_capacity + c_capacity) lc]
    have hz : 0 + (k * c_capacity + c_capacity) = k * c_capacity + c_capacity := by omega
    rw [hz]


/-! ### The live range in flat coordinates -/

theorem block_cells_flat (B : List (List retired_ptr)) (b : Nat) :
    (List.range c_capacity).map (fun i => getCell B b i)
      = (List.range c_capacity).map (fun i => getFlat B (b * c_capacity + i)) := by
  apply List.map_congr_left
  intro i hi
  have hilt : i < c_capacity := List.mem_range.mp hi
  unfold getFlat
  rw [flat_div b i hilt, flat_mod b i hilt]

theorem head_cells_flat (B : List (List retired_ptr)) :
    ∀ (cb : Nat),
      (List.range cb).flatMap (fun b => (List.range c_capacity).map (fun i => getCell B b i))
        = (List.range (cb * c_capacity)).map (fun q => getFlat B q) := by
  intro cb
  induction cb with
  | zero => simp
  | succ k ih =>
    rw [List.range_succ, List.flatMap_append, ih]
    simp only [List.flatMap_cons, List.flatMap_nil, List.append_nil]
    rw [block_cells_flat]
    rw [Nat.succ_mul, List.range_add, List.map_append, List.map_map]
    rfl

theorem live_cells_flat (r : retired_array) (hcc : r.current_cell_ ≤ c_capacity) :
    r.live_cells = (List.range r.pos).map (fun q => getFlat r.blocks q) := by
  unfold retired_array.live_cells retired_array.pos
  rw [head_cells_flat, List.range_add, List.map_append, List.map_map]
  congr 1
  apply List.map_congr_left
  intro i hi
  have hilt : i < c_capacity := lt_of_lt_of_le (List.mem_range.mp hi) hcc
  show getCell r.blocks r.current_block_ i
      = getFlat r.blocks (r.current_block_ * c_capacity + i)
  unfold getFlat
  rw [flat_div _ _ hilt, flat_mod _ _ hilt]

theorem getFlat_append_left (B : List (List retired_ptr)) (B2 : List (List retired_ptr))
    (q : Nat) (h : q < B.length * c_capacity) :
    getFlat (B ++ B2) q = getFlat B q := by
  unfold getFlat getCell
  have hq : q / c_capacity < B.length := by
    rw [c_capacity_eq] at h ⊢
    omega
  rw [nthD_append_left _ _ _ _ hq]

/-! ### Registry record access -/

theorem length_set_record (s : smr) (i : Nat) (t : thread_record) :
    (set_record s i t).thread_list_.length = s.thread_list_.length := by
  unfold set_record
  exact length_updNth _ _ _

theorem record_at_set_self (s : smr) (i : Nat) (t : thread_record)
    (h : i < s.thread_list_.length) :
    record_at (set_record s i t) i = t := by
  unfold record_at set_record
  exact nthD_updNth_self _ _ _ _ h

theorem record_at_set_ne (s : smr) (i j : Nat) (t : thread_record) (h : j ≠ i) :
    record_at (set_record s i t) j = record_at s j := by
  unfold record_at set_record
  exact nthD_updNth_ne _ _ _ _ _ h

/-! ### Characterising one call to scan -/

theorem cells_of_from_zero (B : List (List retired_ptr)) (n : Nat) :
    cells_of B 0 n = (List.range n).map (fun q => getFlat B q) := by
  unfold cells_of
  apply List.map_congr_left
  intro j _
  rw [Nat.zero_add]

theorem scan_unfold (s : smr) (idx : Nat) :
    smr.scan s idx
      = (set_record
          { s with last_plist_size_ :=
              if (collect_hazards s.thread_list_).length > s.last_plist_size_
              then (collect_hazards s.thread_list_).length else s.last_plist_size_ }
          idx
          { (record_at s idx) with retired_ :=
              if (scan_sweep s idx).freed.length = 0
                  ∧ (record_at s idx).retired_.current_block_ + 1
                      = (scan_sweep s idx).arr.blocks.length
                  ∧ (record_at s idx).retired_.current_cell_ = c_capacity
              then (scan_sweep s idx).arr.extend else (scan_sweep s idx).arr },
        (scan_sweep s idx).freed) := rfl

theorem scan_length (s : smr) (idx : Nat) :
    (smr.scan s idx).1.thread_list_.length = s.thread_list_.length := by
  rw [scan_unfold]
  exact length_set_record _ _ _

theorem scan_other (s : smr) (idx j : Nat) (h : j ≠ idx) :
    record_at (smr.scan s idx).1 j = record_at s j := by
  rw [scan_unfold]
  exact record_at_set_ne _ _ _ _ h

theorem scan_flags (s : smr) (idx : Nat) :
    (record_at (smr.scan s idx).1 idx).m_bFree = (record_at s idx).m_bFree ∧
    (record_at (smr.scan s idx).1 idx).m_idOwner = (record_at s idx).m_idOwner ∧
    (record_at (smr.scan s idx).1 idx).hazards_ = (record_at s idx).hazards_ := by
  rw [scan_unfold]
  by_cases h : idx < s.thread_list_.length
  · rw [record_at_set_self _ _ _ (by exact h)]
    exact ⟨rfl, rfl, rfl⟩
  · unfold set_record record_at
    rw [updNth_of_length_le _ _ _ (by exact Nat.le_of_not_lt h)]
    exact ⟨rfl, rfl, rfl⟩

theorem scan_record (s : smr) (idx : Nat) (hidx : idx < s.thread_list_.length) :
    record_at (smr.scan s idx).1 idx
      = { (record_at s idx) with retired_ :=
            if (scan_sweep s idx).freed.length = 0
                ∧ (record_at s idx).retired_.current_block_ + 1
                    = (scan_sweep s idx).arr.blocks.length
                ∧ (record_at s idx).retired_.current_cell_ = c_capacity
            then (scan_sweep s idx).arr.extend else (scan_sweep s idx).arr } := by
  rw [scan_unfold]
  exact record_at_set_self _ _ _ (by exact hidx)

theorem scan_sweep_spec (s : smr) (idx : Nat)
    (hwf : (record_at s idx).retired_.wf) :
    (scan_sweep s idx).arr.blocks.length = (record_at s idx).retired_.blocks.length ∧
    (∀ bb ∈ (scan_sweep s idx).arr.blocks, bb.length = c_capacity) ∧
    (scan_sweep s idx).arr.current_block_ < (record_at s idx).retired_.blocks.length ∧
    (scan_sweep s idx).arr.current_cell_ ≤ c_capacity ∧
    ((scan_sweep s idx).arr.current_cell_ = c_capacity →
      (scan_sweep s idx).arr.current_block_ + 1 = (record_at s idx).retired_.blocks.length) ∧
    (scan_sweep s idx).arr.block_count_ = (record_at s idx).retired_.block_count_ ∧
    (scan_sweep s idx).arr.pos
      = ((record_at s idx).retired_.live_cells.filter
          (fun p => binary_search (scan_plist s) p.m_p)).length ∧
    (scan_sweep s idx).arr.pos ≤ (record_at s idx).retired_.pos ∧
    (List.range (scan_sweep s idx).arr.pos).map
        (fun q => getFlat (scan_sweep s idx).arr.blocks q)
      = (record_at s idx).retired_.live_cells.filter
          (fun p => binary_search (scan_plist s) p.m_p) ∧
    (scan_sweep s idx).freed
      = (record_at s idx).retired_.live_cells.filter
          (fun p => !(binary_search (scan_plist s) p.m_p)) ∧
    (scan_sweep s idx).ok = true := by
  obtain ⟨w1, w2, w3, w4, w5, w6⟩ := hwf
  have hpos0 : ({ (record_at s idx).retired_ with
      current_block_ := 0, current_cell_ := 0 } : retired_array).pos = 0 := by
    show (0 * c_capacity + 0 : Nat) = 0
    omega
  have hposle : (record_at s idx).retired_.pos
      ≤ (record_at s idx).retired_.blocks.length * c_capacity := by
    unfold retired_array.pos
    calc (record_at s idx).retired_.current_block_ * c_capacity
            + (record_at s idx).retired_.current_cell_
        ≤ (record_at s idx).retired_.current_block_ * c_capacity + c_capacity := by omega
      _ = ((record_at s idx).retired_.current_block_ + 1) * c_capacity := by
          rw [Nat.succ_mul]
      _ ≤ (record_at s idx).retired_.blocks.length * c_capacity :=
          Nat.mul_le_mul_right _ (by omega)
  have hsw : scan_sweep s idx
      = flat_sweep (scan_plist s)
          { arr := { (record_at s idx).retired_ with
              current_block_ := 0, current_cell_ := 0 },
            freed := [], ok := true }
          0 ((record_at s idx).retired_.pos) := by
    unfold scan_sweep
    rw [sweep_blocks_eq_flat (scan_plist s) (record_at s idx).retired_.current_block_ _
        (record_at s idx).retired_.current_cell_ w4]
    rfl
  have hcells : cells_of (record_at s idx).retired_.blocks 0 (record_at s idx).retired_.pos
      = (record_at s idx).retired_.live_cells := by
    rw [cells_of_from_zero, ← live_cells_flat _ w4]
  obtain ⟨c1, c2, c3, c4, c5, c6, c7, c8, c9, c10, c11, c12⟩ :=
    flat_sweep_spec (scan_plist s) (record_at s idx).retired_.blocks
      (record_at s idx).retired_.pos 0
      { arr := { (record_at s idx).retired_ with
          current_block_ := 0, current_cell_ := 0 },
        freed := [], ok := true }
      rfl w2 (by exact w1) (Nat.zero_le _)
      (by intro h0
          have h0b : (0 : Nat) = c_capacity := h0
          rw [c_capacity_eq] at h0b
          omega)
      (le_of_eq hpos0) (by rw [Nat.zero_add]; exact hposle)
      (fun r2 _ => rfl) rfl
  rw [hsw]
  refine ⟨c1, c2, c3, c4, c5, ?_, ?_, ?_, ?_, ?_, c12⟩
  · rw [c6]
  · rw [c7, hpos0, hcells, Nat.zero_add]
  · have hz : (0 : Nat) + (record_at s idx).retired_.pos = (record_at s idx).retired_.pos := by
      omega
    rw [hz] at c8
    exact le_trans c8 (le_refl _)
  · rw [c10, hpos0, hcells]
    simp
  · rw [c11, hcells]
    show [] ++ _ = _
    rw [List.nil_append]

theorem scan_spec (s : smr) (idx : Nat)
    (hidx : idx < s.thread_list_.length)
    (hwf : (record_at s idx).retired_.wf) :
    (smr.scan s idx).2
      = (record_at s idx).retired_.live_cells.filter
          (fun p => !(binary_search (scan_plist s) p.m_p)) ∧
    (record_at (smr.scan s idx).1 idx).retired_.live_cells
      = (record_at s idx).retired_.live_cells.filter
          (fun p => binary_search (scan_plist s) p.m_p) ∧
    (record_at (smr.scan s idx).1 idx).retired_.blocks.length
      = (record_at s idx).retired_.blocks.length
        + (if (smr.scan s idx).2.length = 0
              ∧ (record_at s idx).retired_.current_block_ + 1
                  = (record_at s idx).retired_.blocks.length
              ∧ (record_at s idx).retired_.current_cell_ = c_capacity
           then 1 else 0) ∧
    (record_at (smr.scan s idx).1 idx).retired_.block_count_
      = (record_at s idx).retired_.block_count_
        + (if (smr.scan s idx).2.length = 0
              ∧ (record_at s idx).retired_.current_block_ + 1
                  = (record_at s idx).retired_.blocks.length
              ∧ (record_at s idx).retired_.current_cell_ = c_capacity
           then 1 else 0) := by
  have hwf2 := hwf
  obtain ⟨w1, w2, w3, w4, w5, w6⟩ := hwf2
  obtain ⟨d1, d2, d3, d4, d5, d6, d7, d8, d9, d10, d11⟩ := scan_sweep_spec s idx hwf
  have hfreed : (smr.scan s idx).2 = (scan_sweep s idx).freed := by
    rw [scan_unfold]
  have hrec := scan_record s idx hidx
  have hlivelen : (record_at s idx).retired_.live_cells.length
      = (record_at s idx).retired_.pos := by
    rw [live_cells_flat _ w4]
    simp
  have hcnd : ((scan_sweep s idx).freed.length = 0
        ∧ (record_at s idx).retired_.current_block_ + 1 = (scan_sweep s idx).arr.blocks.length
        ∧ (record_at s idx).retired_.current_cell_ = c_capacity)
      ↔ ((smr.scan s idx).2.length = 0
        ∧ (record_at s idx).retired_.current_block_ + 1
            = (record_at s idx).retired_.blocks.length
        ∧ (record_at s idx).retired_.current_cell_ = c_capacity) := by
    rw [hfreed, d1]
  refine ⟨by rw [hfreed]; exact d10, ?_⟩
  by_cases hc : (smr.scan s idx).2.length = 0
      ∧ (record_at s idx).retired_.current_block_ + 1
          = (record_at s idx).retired_.blocks.length
      ∧ (record_at s idx).retired_.current_cell_ = c_capacity
  · -- the extend branch
    have hfnil : (scan_sweep s idx).freed = [] := by
      have := hc.1
      rw [hfreed] at this
      exact List.length_eq_zero.mp this
    have hfeq : (record_at s idx).retired_.live_cells.filter
        (fun p => binary_search (scan_plist s) p.m_p)
        = (record_at s idx).retired_.live_cells := by
      apply List.filter_eq_self.mpr
      intro a ha
      have hnil : (record_at s idx).retired_.live_cells.filter
          (fun p => !(binary_search (scan_plist s) p.m_p)) = [] := by
        rw [← d10, hfnil]
      have := List.filter_eq_nil_iff.mp hnil a ha
      simp at this
      exact this
    have hrpos : (record_at s idx).retired_.pos
        = (record_at s idx).retired_.blocks.length * c_capacity := by
      unfold retired_array.pos
      rw [hc.2.2, ← Nat.succ_mul, Nat.succ_eq_add_one, hc.2.1]
    have hposf : (scan_sweep s idx).arr.pos = (record_at s idx).retired_.pos := by
      rw [d7, hfeq, hlivelen]
    have hposf2 : (scan_sweep s idx).arr.pos
        = (scan_sweep s idx).arr.blocks.length * c_capacity := by
      rw [hposf, hrpos, d1]
    rw [hrec, if_pos (hcnd.mpr hc)]
    refine ⟨?_, ?_, ?_⟩
    · show (scan_sweep s idx).arr.extend.live_cells = _
      rw [live_cells_flat _ (Nat.zero_le _)]
      have hextpos : (scan_sweep s idx).arr.extend.pos
          = (scan_sweep s idx).arr.blocks.length * c_capacity := by
        show (scan_sweep s idx).arr.blocks.length * c_capacity + 0 = _
        omega
      rw [hextpos]
      have hmape : (List.range ((scan_sweep s idx).arr.blocks.length * c_capacity)).map
            (fun q => getFlat (scan_sweep s idx).arr.extend.blocks q)
          = (List.range ((scan_sweep s idx).arr.blocks.length * c_capacity)).map
            (fun q => getFlat (scan_sweep s idx).arr.blocks q) := by
        apply List.map_congr_left
        intro q hq
        exact getFlat_append_left _ _ q (List.mem_range.mp hq)
      rw [hmape, ← hposf2]
      exact d9
    · rw [if_pos hc]
      show ((scan_sweep s idx).arr.blocks ++ [empty_block]).length = _
      rw [List.length_append, d1]
      rfl
    · rw [if_pos hc]
      show (scan_sweep s idx).arr.block_count_ + 1 = _
      rw [d6]
  · rw [hrec, if_neg (fun hh => hc (hcnd.mp hh))]
    refine ⟨?_, ?_, ?_⟩
    · show (scan_sweep s idx).arr.live_cells = _
      rw [live_cells_flat _ d4]
      exact d9
    · rw [if_neg hc, d1]
      omega
    · rw [if_neg hc, d6]
      omega

/-! ### Claim theorems: scan (C1, C5, C6) -/

/-- C1: during Stage 2 of `scan(r)`, for every retired pointer in r's live
range the deleter is invoked iff its address is absent from the sorted hazard
list `plist` of Stage 1 (membership in the sorted plist being what
`binary_search` decides); the pointers whose address is present are instead
re-inserted through `safe_push` and are exactly the live cells of the retired
array after the scan, in order. -/
theorem scan_frees_exactly_unhazarded (s : smr) (idx : Nat)
    (hidx : idx < s.thread_list_.length)
    (hwf : (record_at s idx).retired_.wf) :
    (∀ x, binary_search (scan_plist s) x = decide (x ∈ collect_hazards s.thread_list_)) ∧
    (smr.scan s idx).2
      = (record_at s idx).retired_.live_cells.filter
          (fun p => !(binary_search (scan_plist s) p.m_p)) ∧
    (record_at (smr.scan s idx).1 idx).retired_.live_cells
      = (record_at s idx).retired_.live_cells.filter
          (fun p => binary_search (scan_plist s) p.m_p) := by
  obtain ⟨a1, a2, _, _⟩ := scan_spec s idx hidx hwf
  exact ⟨fun x => binary_search_sort (collect_hazards s.thread_list_) x, a1, a2⟩

set_option maxRecDepth 1000000 in
/-- Witness for C1: in `wit_reg1`, address 10 is hazarded and address 20 is
not; the scan frees exactly (20, deleter 2) and keeps exactly (10, deleter 1). -/
theorem scan_frees_exactly_unhazarded_witness :
    0 < wit_reg1.thread_list_.length ∧
    (record_at wit_reg1 0).retired_.wf ∧
    ((∀ x, binary_search (scan_plist wit_reg1) x
        = decide (x ∈ collect_hazards wit_reg1.thread_list_)) ∧
     (smr.scan wit_reg1 0).2
       = (record_at wit_reg1 0).retired_.live_cells.filter
           (fun p => !(binary_search (scan_plist wit_reg1) p.m_p)) ∧
     (record_at (smr.scan wit_reg1 0).1 0).retired_.live_cells
       = (record_at wit_reg1 0).retired_.live_cells.filter
           (fun p => binary_search (scan_plist wit_reg1) p.m_p)) :=
  ⟨by decide, by decide, scan_frees_exactly_unhazarded wit_reg1 0 (by decide) (by decide)⟩

/-- C5: in every `scan`, the Stage-2 sweep over a well-formed retired array
keeps every `safe_push` inside the array's capacity (the ghost `ok` flag stays
true, so the overflow branch is unreachable), and the rewound write cursor
never passes the saved pre-scan position: after any prefix of `n` swept cells
at most `n` survivors have been re-inserted, and at the end the cursor is at
or behind the saved position. -/
theorem scan_safe_push_within_bounds (s : smr) (idx : Nat)
    (hwf : (record_at s idx).retired_.wf) :
    (scan_sweep s idx).ok = true ∧
    (scan_sweep s idx).arr.pos ≤ (record_at s idx).retired_.pos ∧
    (∀ n, n ≤ (record_at s idx).retired_.pos →
      (flat_sweep (scan_plist s)
          { arr := { (record_at s idx).retired_ with
              current_block_ := 0, current_cell_ := 0 },
            freed := [], ok := true } 0 n).arr.pos ≤ n ∧
      (flat_sweep (scan_plist s)
          { arr := { (record_at s idx).retired_ with
              current_block_ := 0, current_cell_ := 0 },
            freed := [], ok := true } 0 n).ok = true) := by
  obtain ⟨d1, d2, d3, d4, d5, d6, d7, d8, d9, d10, d11⟩ := scan_sweep_spec s idx hwf
  refine ⟨d11, d8, ?_⟩
  intro n hn
  have hwf2 := hwf
  obtain ⟨w1, w2, w3, w4, w5, w6⟩ := hwf2
  have hpos0 : ({ (record_at s idx).retired_ with
      current_block_ := 0, current_cell_ := 0 } : retired_array).pos = 0 := by
    show (0 * c_capacity + 0 : Nat) = 0
    omega
  have hposle : (record_at s idx).retired_.pos
      ≤ (record_at s idx).retired_.blocks.length * c_capacity := by
    unfold retired_array.pos
    calc (record_at s idx).retired_.current_block_ * c_capacity
            + (record_at s idx).retired_.current_cell_
        ≤ (record_at s idx).retired_.current_block_ * c_capacity + c_capacity := by omega
      _ = ((record_at s idx).retired_.current_block_ + 1) * c_capacity := by
          rw [Nat.succ_mul]
      _ ≤ (record_at s idx).retired_.blocks.length * c_capacity :=
          Nat.mul_le_mul_right _ (by omega)
  obtain ⟨c1, c2, c3, c4, c5, c6, c7, c8, c9, c10, c11, c12⟩ :=
    flat_sweep_spec (scan_plist s) (record_at s idx).retired_.blocks n 0
      { arr := { (record_at s idx).retired_ with
          current_block_ := 0, current_cell_ := 0 },
        freed := [], ok := true }
      rfl w2 (by exact w1) (Nat.zero_le _)
      (by intro h0
          have h0b : (0 : Nat) = c_capacity := h0
          rw [c_capacity_eq] at h0b
          omega)
      (le_of_eq hpos0) (by omega)
      (fun r2 _ => rfl) rfl
  constructor
  · have hz : (0 : Nat) + n = n := by omega
    rw [hz] at c8
    exact c8
  · exact c12

set_option maxRecDepth 1000000 in
/-- Witness for C5 at the concrete registry `wit_reg1`. -/
theorem scan_safe_push_within_bounds_witness :
    (record_at wit_reg1 0).retired_.wf ∧
    ((scan_sweep wit_reg1 0).ok = true ∧
     (scan_sweep wit_reg1 0).arr.pos ≤ (record_at wit_reg1 0).retired_.pos ∧
     (∀ n, n ≤ (record_at wit_reg1 0).retired_.pos →
       (flat_sweep (scan_plist wit_reg1)
           { arr := { (record_at wit_reg1 0).retired_ with
               current_block_ := 0, current_cell_ := 0 },
             freed := [], ok := true } 0 n).arr.pos ≤ n ∧
       (flat_sweep (scan_plist wit_reg1)
           { arr := { (record_at wit_reg1 0).retired_ with
               current_block_ := 0, current_cell_ := 0 },
             freed := [], ok := true } 0 n).ok = true)) :=
  ⟨by decide, scan_safe_push_within_bounds wit_reg1 0 (by decide)⟩

/-- C6: `scan` grows the retired array's block list (and `block_count_`) by
exactly one block iff the sweep freed zero pointers, the saved current block
was the list tail, and the saved current cell sat at the tail's full-capacity
end; in every other case the block structure is unchanged. -/
theorem scan_extend_iff (s : smr) (idx : Nat)
    (hidx : idx < s.thread_list_.length)
    (hwf : (record_at s idx).retired_.wf) :
    (record_at (smr.scan s idx).1 idx).retired_.blocks.length
      = (record_at s idx).retired_.blocks.length
        + (if (smr.scan s idx).2.length = 0
              ∧ (record_at s idx).retired_.current_block_ + 1
                  = (record_at s idx).retired_.blocks.length
              ∧ (record_at s idx).retired_.current_cell_ = c_capacity
           then 1 else 0) ∧
    (record_at (smr.scan s idx).1 idx).retired_.block_count_
      = (record_at s idx).retired_.block_count_
        + (if (smr.scan s idx).2.length = 0
              ∧ (record_at s idx).retired_.current_block_ + 1
                  = (record_at s idx).retired_.blocks.length
              ∧ (record_at s idx).retired_.current_cell_ = c_capacity
           then 1 else 0) := by
  obtain ⟨_, _, a3, a4⟩ := scan_spec s idx hidx hwf
  exact ⟨a3, a4⟩

set_option maxRecDepth 1000000 in
/-- Witness for C6: in `wit_reg_full` every retiree is hazarded and the cursor
is parked at the full tail, so the scan frees nothing and extends the array
from one block to two. -/
theorem scan_extend_iff_witness :
    0 < wit_reg_full.thread_list_.length ∧
    (record_at wit_reg_full 0).retired_.wf ∧
    ((record_at (smr.scan wit_reg_full 0).1 0).retired_.blocks.length
       = (record_at wit_reg_full 0).retired_.blocks.length
         + (if (smr.scan wit_reg_full 0).2.length = 0
               ∧ (record_at wit_reg_full 0).retired_.current_block_ + 1
                   = (record_at wit_reg_full 0).retired_.blocks.length
               ∧ (record_at wit_reg_full 0).retired_.current_cell_ = c_capacity
            then 1 else 0) ∧
     (record_at (smr.scan wit_reg_full 0).1 0).retired_.block_count_
       = (record_at wit_reg_full 0).retired_.block_count_
         + (if (smr.scan wit_reg_full 0).2.length = 0
               ∧ (record_at wit_reg_full 0).retired_.current_block_ + 1
                   = (record_at wit_reg_full 0).retired_.blocks.length
               ∧ (record_at wit_reg_full 0).retired_.current_cell_ = c_capacity
            then 1 else 0)) :=
  ⟨by decide, by decide, scan_extend_iff wit_reg_full 0 (by decide) (by decide)⟩

/-! ### Preservation lemmas for the migration machinery of help_scan -/

theorem foldl_invariant {α β : Type} (P : α → Prop) (f : α → β → α) (l : List β) (a : α)
    (h0 : P a) (hstep : ∀ acc b, b ∈ l → P acc → P (f acc b)) : P (l.foldl f a) := by
  induction l generalizing a with
  | nil => exact h0
  | cons x t ih =>
    exact ih (f a x) (hstep a x (List.mem_cons_self _ _) h0)
      (fun acc b hb hp => hstep acc b (List.mem_cons_of_mem _ hb) hp)

theorem set_record_flags (s : smr) (i : Nat) (ra : retired_array) :
    (record_at (set_record s i { record_at s i with retired_ := ra }) i).m_bFree
      = (record_at s i).m_bFree ∧
    (record_at (set_record s i { record_at s i with retired_ := ra }) i).m_idOwner
      = (record_at s i).m_idOwner ∧
    (record_at (set_record s i { record_at s i with retired_ := ra }) i).hazards_
      = (record_at s i).hazards_ := by
  by_cases h : i < s.thread_list_.length
  · rw [record_at_set_self _ _ _ h]
    exact ⟨rfl, rfl, rfl⟩
  · unfold set_record record_at
    rw [updNth_of_length_le _ _ _ (Nat.le_of_not_lt h)]
    exact ⟨rfl, rfl, rfl⟩

theorem push_step_length (s : smr) (idx : Nat) (p : retired_ptr) :
    (push_step s idx p).1.thread_list_.length = s.thread_list_.length := by
  unfold push_step
  exact length_set_record _ _ _

theorem push_step_other (s : smr) (idx j : Nat) (p : retired_ptr) (h : j ≠ idx) :
    record_at (push_step s idx p).1 j = record_at s j := by
  unfold push_step
  exact record_at_set_ne _ _ _ _ h

theorem push_step_flags (s : smr) (idx : Nat) (p : retired_ptr) :
    (record_at (push_step s idx p).1 idx).m_bFree = (record_at s idx).m_bFree ∧
    (record_at (push_step s idx p).1 idx).m_idOwner = (record_at s idx).m_idOwner ∧
    (record_at (push_step s idx p).1 idx).hazards_ = (record_at s idx).hazards_ := by
  unfold push_step
  exact set_record_flags s idx _

theorem migrate_cell_pres (idx i b j : Nat) (ms : migrate_state) (hne : i ≠ idx) :
    record_at (migrate_cell idx i b ms j).s i = record_at ms.s i ∧
    (migrate_cell idx i b ms j).s.thread_list_.length = ms.s.thread_list_.length ∧
    (migrate_cell idx i b ms j).done = ms.done ∧
    (migrate_cell idx i b ms j).pushed
      = ms.pushed ++ [getCell (record_at ms.s i).retired_.blocks b j] := by
  unfold migrate_cell
  by_cases hb : (push_step ms.s idx
      (getCell (record_at ms.s i).retired_.blocks b j)).2 = true
  · rw [if_pos hb]
    exact ⟨push_step_other _ _ _ _ hne, push_step_length _ _ _, rfl, rfl⟩
  · rw [if_neg hb]
    refine ⟨?_, ?_, rfl, rfl⟩
    · rw [scan_other _ _ _ hne, push_step_other _ _ _ _ hne]
    · rw [scan_length, push_step_length]

theorem migrate_cell_this (idx i b j : Nat) (ms : migrate_state) :
    (record_at (migrate_cell idx i b ms j).s idx).m_bFree = (record_at ms.s idx).m_bFree ∧
    (record_at (migrate_cell idx i b ms j).s idx).m_idOwner
      = (record_at ms.s idx).m_idOwner ∧
    (migrate_cell idx i b ms j).s.thread_list_.length = ms.s.thread_list_.length := by
  unfold migrate_cell
  by_cases hb : (push_step ms.s idx
      (getCell (record_at ms.s i).retired_.blocks b j)).2 = true
  · rw [if_pos hb]
    exact ⟨(push_step_flags _ _ _).1, (push_step_flags _ _ _).2.1, push_step_length _ _ _⟩
  · rw [if_neg hb]
    refine ⟨?_, ?_, ?_⟩
    · rw [(scan_flags _ _).1, (push_step_flags _ _ _).1]
    · rw [(scan_flags _ _).2.1, (push_step_flags _ _ _).2.1]
    · rw [scan_length, push_step_length]

theorem migrate_cells_spec (idx i b : Nat) (hne : i ≠ idx) (hrec : thread_record) :
    ∀ (m : Nat) (ms : migrate_state),
      record_at ms.s i = hrec →
      record_at ((List.range m).foldl (fun mm j => migrate_cell idx i b mm j) ms).s i
        = hrec ∧
      ((List.range m).foldl (fun mm j => migrate_cell idx i b mm j) ms).s.thread_list_.length
        = ms.s.thread_list_.length ∧
      ((List.range m).foldl (fun mm j => migrate_cell idx i b mm j) ms).done = ms.done ∧
      ((List.range m).foldl (fun mm j => migrate_cell idx i b mm j) ms).pushed
        = ms.pushed ++ (List.range m).map (fun j => getCell hrec.retired_.blocks b j) := by
  intro m
  induction m with
  | zero =>
    intro ms hms
    refine ⟨hms, rfl, rfl, ?_⟩
    simp
  | succ m ih =>
    intro ms hms
    rw [List.range_succ, List.foldl_append]
    obtain ⟨i1, i2, i3, i4⟩ := ih ms hms
    simp only [List.foldl_cons, List.foldl_nil]
    obtain ⟨m1, m2, m3, m4⟩ :=
      migrate_cell_pres idx i b m
        ((List.range m).foldl (fun mm j => migrate_cell idx i b mm j) ms) hne
    refine ⟨?_, ?_, ?_, ?_⟩
    · rw [m1, i1]
    · rw [m2, i2]
    · rw [m3, i3]
    · rw [m4, i1, i4, List.map_append, List.append_assoc]
      simp

theorem ms_mk_s (a : smr) (f p : List retired_ptr) (d : Bool) :
    ({ s := a, freed := f, pushed := p, done := d } : migrate_state).s = a := rfl

theorem ms_mk_freed (a : smr) (f p : List retired_ptr) (d : Bool) :
    ({ s := a, freed := f, pushed := p, done := d } : migrate_state).freed = f := rfl

theorem ms_mk_pushed (a : smr) (f p : List retired_ptr) (d : Bool) :
    ({ s := a, freed := f, pushed := p, done := d } : migrate_state).pushed = p := rfl

theorem ms_mk_done (a : smr) (f p : List retired_ptr) (d : Bool) :
    ({ s := a, freed := f, pushed := p, done := d } : migrate_state).done = d := rfl

theorem migrate_block_eq (idx i b : Nat) (ms : migrate_state) :
    migrate_block idx i ms b
      = if ms.done = true then ms
        else
          { s := ((List.range (if b = (record_at ms.s i).retired_.current_block_
                then (record_at ms.s i).retired_.current_cell_ else c_capacity)).foldl
                (fun m j => migrate_cell idx i b m j) ms).s,
            freed := ((List.range (if b = (record_at ms.s i).retired_.current_block_
                then (record_at ms.s i).retired_.current_cell_ else c_capacity)).foldl
                (fun m j => migrate_cell idx i b m j) ms).freed,
            pushed := ((List.range (if b = (record_at ms.s i).retired_.current_block_
                then (record_at ms.s i).retired_.current_cell_ else c_capacity)).foldl
                (fun m j => migrate_cell idx i b m j) ms).pushed,
            done := decide (b = (record_at ((List.range
                (if b = (record_at ms.s i).retired_.current_block_
                  then (record_at ms.s i).retired_.current_cell_ else c_capacity)).foldl
                (fun m j => migrate_cell idx i b m j) ms).s i).retired_.current_block_) } := rfl

set_option maxRecDepth 100000 in
theorem migrate_blocks_spec (idx i : Nat) (hne : i ≠ idx) (hrec : thread_record) :
    ∀ (n : Nat) (ms : migrate_state),
      record_at ms.s i = hrec →
      ms.done = false →
      record_at ((List.range n).foldl (fun mm b => migrate_block idx i mm b) ms).s i
        = hrec ∧
      ((List.range n).foldl (fun mm b => migrate_block idx i mm b) ms).s.thread_list_.length
        = ms.s.thread_list_.length ∧
      (n ≤ hrec.retired_.current_block_ →
        ((List.range n).foldl (fun mm b => migrate_block idx i mm b) ms).done = false ∧
        ((List.range n).foldl (fun mm b => migrate_block idx i mm b) ms).pushed
          = ms.pushed ++ (List.range n).flatMap
              (fun b => (List.range c_capacity).map
                (fun j => getCell hrec.retired_.blocks b j))) ∧
      (hrec.retired_.current_block_ < n →
        ((List.range n).foldl (fun mm b => migrate_block idx i mm b) ms).done = true ∧
        ((List.range n).foldl (fun mm b => migrate_block idx i mm b) ms).pushed
          = ms.pushed ++ hrec.retired_.live_cells) := by
  intro n
  induction n with
  | zero =>
    intro ms hms hdone
    refine ⟨hms, rfl, ?_, ?_⟩
    · intro _
      refine ⟨hdone, ?_⟩
      simp
    · intro hlt
      exact absurd hlt (by omega)
  | succ n ih =>
    intro ms hms hdone
    rw [List.range_succ, List.foldl_append]
    obtain ⟨i1, i2, i3, i4⟩ := ih ms hms hdone
    simp only [List.foldl_cons, List.foldl_nil]
    rcases Nat.lt_trichotomy n hrec.retired_.current_block_ with hcmp | hcmp | hcmp
    · -- a full block strictly before the current block
      obtain ⟨id1, ip1⟩ := i3 (by omega)
      rw [migrate_block_eq, id1, if_neg Bool.false_ne_true]
      rw [i1, if_neg (by omega : ¬ n = hrec.retired_.current_block_)]
      obtain ⟨cs1, cs2, cs3, cs4⟩ :=
        migrate_cells_spec idx i n hne hrec c_capacity
          ((List.range n).foldl (fun mm b => migrate_block idx i mm b) ms) i1
      rw [ms_mk_s, ms_mk_pushed, ms_mk_done]
      refine ⟨?_, ?_, ?_, ?_⟩
      · exact cs1
      · rw [cs2, i2]
      · intro _
        constructor
        · rw [cs1]
          exact decide_eq_false (by omega)
        · rw [cs4, ip1, List.flatMap_append, List.append_assoc]
          simp
      · intro hlt
        exact absurd hlt (by omega)
    · -- the current block: the loop stops after it
      obtain ⟨id1, ip1⟩ := i3 (by omega)
      rw [migrate_block_eq, id1, if_neg Bool.false_ne_true]
      rw [i1, if_pos hcmp]
      obtain ⟨cs1, cs2, cs3, cs4⟩ :=
        migrate_cells_spec idx i n hne hrec hrec.retired_.current_cell_
          ((List.range n).foldl (fun mm b => migrate_block idx i mm b) ms) i1
      rw [ms_mk_s, ms_mk_pushed, ms_mk_done]
      refine ⟨?_, ?_, ?_, ?_⟩
      · exact cs1
      · rw [cs2, i2]
      · intro hle
        exact absurd hle (by omega)
      · intro _
        constructor
        · rw [cs1]
          exact decide_eq_true hcmp
        · rw [cs4, ip1, hcmp]
          unfold retired_array.live_cells
          rw [List.append_assoc]
    · -- past the current block: the break flag stops the loop
      obtain ⟨id1, ip1⟩ := i4 (by omega)
      rw [migrate_block_eq, id1, if_pos rfl]
      refine ⟨i1, i2, ?_, ?_⟩
      · intro hle
        exact absurd hle (by omega)
      · intro _
        exact ⟨id1, ip1⟩

set_option maxRecDepth 100000 in
theorem migrate_block_this (idx i b : Nat) (ms : migrate_state) :
    (record_at (migrate_block idx i ms b).s idx).m_bFree = (record_at ms.s idx).m_bFree ∧
    (record_at (migrate_block idx i ms b).s idx).m_idOwner
      = (record_at ms.s idx).m_idOwner ∧
    (migrate_block idx i ms b).s.thread_list_.length = ms.s.thread_list_.length := by
  rw [migrate_block_eq]
  by_cases hd : ms.done = true
  · rw [if_pos hd]
    exact ⟨rfl, rfl, rfl⟩
  · rw [if_neg hd]
    exact foldl_invariant
      (fun mm : migrate_state =>
        (record_at mm.s idx).m_bFree = (record_at ms.s idx).m_bFree ∧
        (record_at mm.s idx).m_idOwner = (record_at ms.s idx).m_idOwner ∧
        mm.s.thread_list_.length = ms.s.thread_list_.length)
      (fun mm j => migrate_cell idx i b mm j) _ ms ⟨rfl, rfl, rfl⟩
      (fun acc bb _ hp => by
        obtain ⟨t1, t2, t3⟩ := migrate_cell_this idx i b bb acc
        exact ⟨t1.trans hp.1, t2.trans hp.2.1, t3.trans hp.2.2⟩)

theorem help_scan_migrate_this (s : smr) (i idx : Nat) :
    (record_at (help_scan_migrate s i idx).s idx).m_bFree = (record_at s idx).m_bFree ∧
    (record_at (help_scan_migrate s i idx).s idx).m_idOwner
      = (record_at s idx).m_idOwner ∧
    (help_scan_migrate s i idx).s.thread_list_.length = s.thread_list_.length := by
  unfold help_scan_migrate
  exact foldl_invariant
    (fun mm : migrate_state =>
      (record_at mm.s idx).m_bFree = (record_at s idx).m_bFree ∧
      (record_at mm.s idx).m_idOwner = (record_at s idx).m_idOwner ∧
      mm.s.thread_list_.length = s.thread_list_.length)
    (fun mm b => migrate_block idx i mm b) _ _ ⟨rfl, rfl, rfl⟩
    (fun acc bb _ hp => by
      obtain ⟨t1, t2, t3⟩ := migrate_block_this idx i bb acc
      exact ⟨t1.trans hp.1, t2.trans hp.2.1, t3.trans hp.2.2⟩)

theorem help_scan_record_this_flags (s : smr) (i idx curId : Nat) (alive : Nat → Bool)
    (hown : (record_at s idx).m_idOwner ≠ 0)
    (halive : alive (record_at s idx).m_idOwner = true) :
    (record_at (help_scan_record s i idx curId alive).1 idx).m_bFree
      = (record_at s idx).m_bFree ∧
    (record_at (help_scan_record s i idx curId alive).1 idx).m_idOwner
      = (record_at s idx).m_idOwner ∧
    (help_scan_record s i idx curId alive).1.thread_list_.length
      = s.thread_list_.length := by
  unfold help_scan_record
  by_cases hb : (record_at s i).m_bFree = true
  · rw [if_pos hb]
    exact ⟨rfl, rfl, rfl⟩
  · rw [if_neg hb]
    by_cases hcl : (record_at s i).m_idOwner = 0 ∨ alive (record_at s i).m_idOwner = false
    · rw [if_pos hcl]
      by_cases hii : i = idx
      · exfalso
        subst hii
        rcases hcl with hcl | hcl
        · exact hown hcl
        · rw [halive] at hcl
          simp at hcl
      · obtain ⟨t1, t2, t3⟩ := help_scan_migrate_this
          (set_record s i { (record_at s i) with m_idOwner := curId }) i idx
        have hset1 : record_at (set_record s i
            { (record_at s i) with m_idOwner := curId }) idx = record_at s idx :=
          record_at_set_ne _ _ _ _ (fun hh => hii hh.symm)
        refine ⟨?_, ?_, ?_⟩
        · rw [record_at_set_ne _ _ _ _ (fun hh => hii hh.symm), t1, hset1]
        · rw [record_at_set_ne _ _ _ _ (fun hh => hii hh.symm), t2, hset1]
        · rw [length_set_record, t3, length_set_record]
    · rw [if_neg hcl]
      exact ⟨rfl, rfl, rfl⟩

theorem help_scan_this_flags (s : smr) (idx curId : Nat) (alive : Nat → Bool)
    (hown : (record_at s idx).m_idOwner ≠ 0)
    (halive : alive (record_at s idx).m_idOwner = true) :
    (record_at (smr.help_scan s idx curId alive).1 idx).m_bFree
      = (record_at s idx).m_bFree ∧
    (record_at (smr.help_scan s idx curId alive).1 idx).m_idOwner
      = (record_at s idx).m_idOwner ∧
    (smr.help_scan s idx curId alive).1.thread_list_.length = s.thread_list_.length := by
  unfold smr.help_scan
  have hloop := foldl_invariant
    (fun acc : smr × List retired_ptr =>
      (record_at acc.1 idx).m_bFree = (record_at s idx).m_bFree ∧
      (record_at acc.1 idx).m_idOwner = (record_at s idx).m_idOwner ∧
      acc.1.thread_list_.length = s.thread_list_.length)
    (fun acc i =>
      ((help_scan_record acc.1 i idx curId alive).1,
        acc.2 ++ (help_scan_record acc.1 i idx curId alive).2.1))
    (List.range s.thread_list_.length) (s, []) ⟨rfl, rfl, rfl⟩
    (fun acc bb _ hp => by
      obtain ⟨t1, t2, t3⟩ := help_scan_record_this_flags acc.1 bb idx curId alive
        (by rw [hp.2.1]; exact hown) (by rw [hp.2.1]; exact halive)
      exact ⟨t1.trans hp.1, t2.trans hp.2.1, t3.trans hp.2.2⟩)
  refine ⟨?_, ?_, ?_⟩
  · rw [(scan_flags _ _).1]
    exact hloop.1
  · rw [(scan_flags _ _).2.1]
    exact hloop.2.1
  · rw [scan_length]
    exact hloop.2.2

theorem help_scan_record_eq (s : smr) (i idx curId : Nat) (alive : Nat → Bool) :
    help_scan_record s i idx curId alive =
      if (record_at s i).m_bFree then (s, [], [])
      else if (record_at s i).m_idOwner = 0 ∨ alive (record_at s i).m_idOwner = false then
        (set_record (help_scan_migrate (set_record s i
              { (record_at s i) with m_idOwner := curId }) i idx).s i
            { (record_at (help_scan_migrate (set_record s i
                { (record_at s i) with m_idOwner := curId }) i idx).s i) with
                retired_ := (record_at (help_scan_migrate (set_record s i
                  { (record_at s i) with m_idOwner := curId }) i idx).s i).retired_.fini,
                m_bFree := true,
                m_idOwner := 0 },
          (help_scan_migrate (set_record s i
              { (record_at s i) with m_idOwner := curId }) i idx).freed,
          (help_scan_migrate (set_record s i
              { (record_at s i) with m_idOwner := curId }) i idx).pushed)
      else (s, [], []) := rfl

/-! ### Claim theorems: help_scan (C2) -/

set_option maxRecDepth 100000 in
/-- C2 (amended): during `help_scan(r)`, for every registry record `h` that the
caller claims (`h.is_free` is false, `h.owner_id` is null or names a dead
thread, and the CAS — which in the sequential model always succeeds — installs
the caller's id), every live retired pointer of `h` is pushed exactly once into
`r`'s retired array (`push` stores the pointer even when it reports overflow,
and a `scan(r)` — with no retry — follows a false return); afterwards `h`'s
retired array is reset empty, `h.is_free` is true and `h.owner_id` is null. -/
theorem help_scan_migrates_and_frees_record (s : smr) (i idx curId : Nat)
    (alive : Nat → Bool)
    (hi : i < s.thread_list_.length)
    (hne : i ≠ idx)
    (hwf : (record_at s i).retired_.wf)
    (hfree : (record_at s i).m_bFree = false)
    (horph : (record_at s i).m_idOwner = 0 ∨ alive (record_at s i).m_idOwner = false) :
    (help_scan_record s i idx curId alive).2.2 = (record_at s i).retired_.live_cells ∧
    record_at (help_scan_record s i idx curId alive).1 i
      = { (record_at s i) with
            retired_ := (record_at s i).retired_.fini,
            m_bFree := true,
            m_idOwner := 0 } ∧
    (record_at (help_scan_record s i idx curId alive).1 i).retired_.empty = true := by
  obtain ⟨w1, w2, w3, w4, w5, w6⟩ := hwf
  rw [help_scan_record_eq, hfree]
  rw [if_neg Bool.false_ne_true, if_pos horph]
  unfold help_scan_migrate
  rw [record_at_set_self s i { (record_at s i) with m_idOwner := curId } hi]
  obtain ⟨m1, m2, m3, m4⟩ :=
    migrate_blocks_spec idx i hne { (record_at s i) with m_idOwner := curId }
      ({ (record_at s i) with m_idOwner := curId } : thread_record).retired_.blocks.length
      { s := set_record s i { (record_at s i) with m_idOwner := curId },
        freed := [], pushed := [], done := false }
      (record_at_set_self s i { (record_at s i) with m_idOwner := curId } hi) rfl
  obtain ⟨d1, p1⟩ := m4 (by exact w3)
  refine ⟨?_, ?_, ?_⟩
  · rw [p1]
    rw [List.nil_append]
  · rw [m1]
    have hlen2 : i < ((List.range
          ({ (record_at s i) with m_idOwner := curId } : thread_record).retired_.blocks.length).foldl
          (fun mm b => migrate_block idx i mm b)
          { s := set_record s i { (record_at s i) with m_idOwner := curId },
            freed := [], pushed := [], done := false }).s.thread_list_.length := by
      rw [m2]
      show i < (set_record s i { (record_at s i) with m_idOwner := curId }).thread_list_.length
      rw [length_set_record]
      exact hi
    rw [record_at_set_self _ _ _ hlen2]
  · rw [m1]
    have hlen2 : i < ((List.range
          ({ (record_at s i) with m_idOwner := curId } : thread_record).retired_.blocks.length).foldl
          (fun mm b => migrate_block idx i mm b)
          { s := set_record s i { (record_at s i) with m_idOwner := curId },
            freed := [], pushed := [], done := false }).s.thread_list_.length := by
      rw [m2]
      show i < (set_record s i { (record_at s i) with m_idOwner := curId }).thread_list_.length
      rw [length_set_record]
      exact hi
    rw [record_at_set_self _ _ _ hlen2]
    rfl


set_option maxRecDepth 1000000 in
/-- Witness for C2 (amended): in `wit_orph` the caller (record 0) claims the
orphaned record 1 — not free, null owner — and migrates its single live
retiree (7, deleter 1); afterwards record 1 is empty, free and unowned. -/
theorem help_scan_migrates_and_frees_record_witness :
    1 < wit_orph.thread_list_.length ∧
    (1 : Nat) ≠ 0 ∧
    (record_at wit_orph 1).retired_.wf ∧
    (record_at wit_orph 1).m_bFree = false ∧
    ((record_at wit_orph 1).m_idOwner = 0
      ∨ (fun _ : Nat => false) (record_at wit_orph 1).m_idOwner = false) ∧
    ((help_scan_record wit_orph 1 0 5 (fun _ => false)).2.2
        = (record_at wit_orph 1).retired_.live_cells ∧
     record_at (help_scan_record wit_orph 1 0 5 (fun _ => false)).1 1
       = { (record_at wit_orph 1) with
             retired_ := (record_at wit_orph 1).retired_.fini,
             m_bFree := true,
             m_idOwner := 0 } ∧
     (record_at (help_scan_record wit_orph 1 0 5 (fun _ => false)).1 1).retired_.empty
       = true) :=
  ⟨by decide, by decide, by decide, by decide, Or.inl (by decide),
    help_scan_migrates_and_frees_record wit_orph 1 0 5 (fun _ => false)
      (by decide) (by decide) (by decide) (by decide) (Or.inl (by decide))⟩

set_option maxRecDepth 1000000 in
/-- Counterexample to C2 as stated: the spec says that when `push` returns
false during the migration, `help_scan` calls `scan(r)` "and retries" the push,
but the source (dhp.cpp line 475: `if (!dest.push(*p)) scan(pThis);`) never
retries — `push` has already stored the pointer.  In `wit_cex` the caller's
retired array has exactly one free cell and no hazards: migrating the orphan's
retiree (7, deleter 1) overflows, the overflow `scan` frees everything
(including the just-stored retiree), and the code stops there, leaving the
caller's array empty; the spec's retry reading would push (7, deleter 1) once
more after the scan, leaving it live.  The two final states differ. -/
theorem help_scan_no_retry_counterexample :
    (record_at (help_scan_migrate wit_cex 1 0).s 0).retired_.live_cells = [] ∧
    (record_at (help_scan_migrate_retry wit_cex 1 0).s 0).retired_.live_cells
      = [⟨7, 1⟩] ∧
    (help_scan_migrate wit_cex 1 0).s ≠ (help_scan_migrate_retry wit_cex 1 0).s :=
  ⟨by decide, by decide, by decide⟩


/-! ### Claim theorems: construct (C3) -/

/-- C3 (amended): `construct(N₀)` creates the SMR singleton only when it does
not yet exist (and is idempotent while it does), and the constructor
(dhp.cpp line 190) stores 16 when N₀ is strictly below 4 and N₀ itself
otherwise — not max(N₀, 16); the scan buffer hint is presized to 64 slots per
stored hazard and the registry starts empty. -/
theorem construct_hazard_count (inst : Option smr) (n : Nat) :
    smr.construct inst n
      = some (match inst with
              | none => smr.mk_new n
              | some s => s) ∧
    (smr.mk_new n).initial_hazard_count_ = (if n < 4 then 16 else n) ∧
    (smr.mk_new n).last_plist_size_ = (if n < 4 then 16 else n) * 64 ∧
    (smr.mk_new n).thread_list_ = [] := by
  refine ⟨?_, rfl, rfl, rfl⟩
  cases inst with
  | none => rfl
  | some s => rfl

/-- Counterexample to C3 as stated: the constructor clamps the hazard count
with `nInitialHazardPtrCount < 4 ? 16 : nInitialHazardPtrCount` (dhp.cpp
line 190), not with max(N₀, 16): constructing with N₀ = 4 — strictly below
16 — stores 4, where the spec's formula demands 16. -/
theorem construct_hazard_count_counterexample :
    (smr.construct none 4).map smr.initial_hazard_count_ = some 4 ∧
    max 4 16 = 16 ∧
    (smr.construct none 4).map smr.initial_hazard_count_ ≠ some (max 4 16) :=
  ⟨rfl, rfl, by decide⟩


/-! ### Claim theorems: free_thread_data (C4) -/

theorem help_scan_record_length (s : smr) (i idx curId : Nat) (alive : Nat → Bool) :
    (help_scan_record s i idx curId alive).1.thread_list_.length
      = s.thread_list_.length := by
  rw [help_scan_record_eq]
  by_cases hb : (record_at s i).m_bFree = true
  · rw [if_pos hb]
  · rw [if_neg hb]
    by_cases hcl : (record_at s i).m_idOwner = 0 ∨ alive (record_at s i).m_idOwner = false
    · rw [if_pos hcl]
      show (set_record (help_scan_migrate (set_record s i
          { (record_at s i) with m_idOwner := curId }) i idx).s i
          { (record_at (help_scan_migrate (set_record s i
              { (record_at s i) with m_idOwner := curId }) i idx).s i) with
              retired_ := (record_at (help_scan_migrate (set_record s i
                { (record_at s i) with m_idOwner := curId }) i idx).s i).retired_.fini,
              m_bFree := true,
              m_idOwner := 0 }).thread_list_.length = s.thread_list_.length
      rw [length_set_record,
        (help_scan_migrate_this (set_record s i
          { (record_at s i) with m_idOwner := curId }) i idx).2.2,
        length_set_record]
    · rw [if_neg hcl]

theorem help_scan_length (s : smr) (idx curId : Nat) (alive : Nat → Bool) :
    (smr.help_scan s idx curId alive).1.thread_list_.length = s.thread_list_.length := by
  unfold smr.help_scan
  have hloop := foldl_invariant
    (fun acc : smr × List retired_ptr =>
      acc.1.thread_list_.length = s.thread_list_.length)
    (fun acc i =>
      ((help_scan_record acc.1 i idx curId alive).1,
        acc.2 ++ (help_scan_record acc.1 i idx curId alive).2.1))
    (List.range s.thread_list_.length) (s, []) rfl
    (fun acc bb _ hp => (help_scan_record_length acc.1 bb idx curId alive).trans hp)
  rw [scan_length]
  exact hloop

theorem free_thread_data_mid_length (s : smr) (idx curId : Nat) (alive : Nat → Bool) :
    (smr.free_thread_data_mid s idx curId alive).1.thread_list_.length
      = s.thread_list_.length := by
  show (smr.help_scan (smr.scan (set_record s idx
      { (record_at s idx) with hazards_ := (record_at s idx).hazards_.clear }) idx).1
      idx curId alive).1.thread_list_.length = s.thread_list_.length
  rw [help_scan_length, scan_length, length_set_record]

theorem free_thread_data_eq (s : smr) (idx curId : Nat) (alive : Nat → Bool) :
    smr.free_thread_data s idx curId alive =
      (set_record
        (if (record_at (smr.free_thread_data_mid s idx curId alive).1 idx).retired_.empty then
          set_record (smr.free_thread_data_mid s idx curId alive).1 idx
            { (record_at (smr.free_thread_data_mid s idx curId alive).1 idx) with
                retired_ := (record_at
                  (smr.free_thread_data_mid s idx curId alive).1 idx).retired_.fini,
                m_bFree := true }
        else
          set_record (smr.free_thread_data_mid s idx curId alive).1 idx
            { (record_at (smr.free_thread_data_mid s idx curId alive).1 idx) with
                retired_ :=
                  { (record_at (smr.free_thread_data_mid s idx curId alive).1 idx).retired_ with
                      blocks := (record_at
                          (smr.free_thread_data_mid s idx curId alive).1 idx).retired_.blocks.take
                        ((record_at
                          (smr.free_thread_data_mid s idx curId alive).1 idx).retired_.current_block_ + 1),
                      block_count_ := (record_at
                          (smr.free_thread_data_mid s idx curId alive).1 idx).retired_.block_count_
                        - ((record_at
                            (smr.free_thread_data_mid s idx curId alive).1 idx).retired_.blocks.length
                          - ((record_at
                            (smr.free_thread_data_mid s idx curId alive).1 idx).retired_.current_block_ + 1)) } })
        idx
        { (record_at
            (if (record_at (smr.free_thread_data_mid s idx curId alive).1 idx).retired_.empty then
              set_record (smr.free_thread_data_mid s idx curId alive).1 idx
                { (record_at (smr.free_thread_data_mid s idx curId alive).1 idx) with
                    retired_ := (record_at
                      (smr.free_thread_data_mid s idx curId alive).1 idx).retired_.fini,
                    m_bFree := true }
            else
              set_record (smr.free_thread_data_mid s idx curId alive).1 idx
                { (record_at (smr.free_thread_data_mid s idx curId alive).1 idx) with
                    retired_ :=
                      { (record_at (smr.free_thread_data_mid s idx curId alive).1 idx).retired_ with
                          blocks := (record_at
                              (smr.free_thread_data_mid s idx curId alive).1 idx).retired_.blocks.take
                            ((record_at
                              (smr.free_thread_data_mid s idx curId alive).1 idx).retired_.current_block_ + 1),
                          block_count_ := (record_at
                              (smr.free_thread_data_mid s idx curId alive).1 idx).retired_.block_count_
                            - ((record_at
                                (smr.free_thread_data_mid s idx curId alive).1 idx).retired_.blocks.length
                              - ((record_at
                                (smr.free_thread_data_mid s idx curId alive).1 idx).retired_.current_block_ + 1)) } })
            idx) with m_idOwner := 0 },
       (smr.free_thread_data_mid s idx curId alive).2) := rfl


set_option maxRecDepth 100000 in
/-- C4: after `free_thread_data(r)` the record's owner field holds the null
thread id; if the retired array was empty after the detach-time `scan` and
`help_scan` it has been reset via `fini` and the record is marked free;
otherwise the spare blocks after `current_block_` are dropped — the block list
is truncated to `current_block_ + 1` blocks and `block_count_` decremented by
the number of dropped blocks — and the free mark is left unchanged (false for
an attached record); the deleter invocations are exactly those of the two
scans. -/
theorem free_thread_data_post (s : smr) (idx curId : Nat) (alive : Nat → Bool)
    (hidx : idx < s.thread_list_.length) :
    (record_at (smr.free_thread_data s idx curId alive).1 idx).m_idOwner = 0 ∧
    (smr.free_thread_data s idx curId alive).2
      = (smr.free_thread_data_mid s idx curId alive).2 ∧
    ((record_at (smr.free_thread_data_mid s idx curId alive).1 idx).retired_.empty = true →
      record_at (smr.free_thread_data s idx curId alive).1 idx
        = { (record_at (smr.free_thread_data_mid s idx curId alive).1 idx) with
              retired_ := (record_at
                (smr.free_thread_data_mid s idx curId alive).1 idx).retired_.fini,
              m_bFree := true,
              m_idOwner := 0 }) ∧
    ((record_at (smr.free_thread_data_mid s idx curId alive).1 idx).retired_.empty = false →
      record_at (smr.free_thread_data s idx curId alive).1 idx
        = { (record_at (smr.free_thread_data_mid s idx curId alive).1 idx) with
              retired_ :=
                { (record_at (smr.free_thread_data_mid s idx curId alive).1 idx).retired_ with
                    blocks := (record_at
                        (smr.free_thread_data_mid s idx curId alive).1 idx).retired_.blocks.take
                      ((record_at
                        (smr.free_thread_data_mid s idx curId alive).1 idx).retired_.current_block_ + 1),
                    block_count_ := (record_at
                        (smr.free_thread_data_mid s idx curId alive).1 idx).retired_.block_count_
                      - ((record_at
                          (smr.free_thread_data_mid s idx curId alive).1 idx).retired_.blocks.length
                        - ((record_at
                          (smr.free_thread_data_mid s idx curId alive).1 idx).retired_.current_block_ + 1)) },
              m_idOwner := 0 }) := by
  have hmlen : idx < (smr.free_thread_data_mid s idx curId alive).1.thread_list_.length := by
    rw [free_thread_data_mid_length]
    exact hidx
  rw [free_thread_data_eq]
  by_cases hemp :
      (record_at (smr.free_thread_data_mid s idx curId alive).1 idx).retired_.empty = true
  · rw [if_pos hemp]
    rw [record_at_set_self (smr.free_thread_data_mid s idx curId alive).1 idx
      { (record_at (smr.free_thread_data_mid s idx curId alive).1 idx) with
          retired_ := (record_at
            (smr.free_thread_data_mid s idx curId alive).1 idx).retired_.fini,
          m_bFree := true } hmlen]
    have hlen2 : idx < (set_record (smr.free_thread_data_mid s idx curId alive).1 idx
        { (record_at (smr.free_thread_data_mid s idx curId alive).1 idx) with
            retired_ := (record_at
              (smr.free_thread_data_mid s idx curId alive).1 idx).retired_.fini,
            m_bFree := true }).thread_list_.length := by
      rw [length_set_record]
      exact hmlen
    rw [record_at_set_self _ _ _ hlen2]
    exact ⟨rfl, rfl, fun _ => rfl,
      fun hff => absurd hemp (by rw [hff]; exact Bool.false_ne_true)⟩
  · rw [if_neg hemp]
    rw [record_at_set_self (smr.free_thread_data_mid s idx curId alive).1 idx
      { (record_at (smr.free_thread_data_mid s idx curId alive).1 idx) with
          retired_ :=
            { (record_at (smr.free_thread_data_mid s idx curId alive).1 idx).retired_ with
                blocks := (record_at
                    (smr.free_thread_data_mid s idx curId alive).1 idx).retired_.blocks.take
                  ((record_at
                    (smr.free_thread_data_mid s idx curId alive).1 idx).retired_.current_block_ + 1),
                block_count_ := (record_at
                    (smr.free_thread_data_mid s idx curId alive).1 idx).retired_.block_count_
                  - ((record_at
                      (smr.free_thread_data_mid s idx curId alive).1 idx).retired_.blocks.length
                    - ((record_at
                      (smr.free_thread_data_mid s idx curId alive).1 idx).retired_.current_block_ + 1)) } }
      hmlen]
    have hlen2 : idx < (set_record (smr.free_thread_data_mid s idx curId alive).1 idx
        { (record_at (smr.free_thread_data_mid s idx curId alive).1 idx) with
            retired_ :=
              { (record_at (smr.free_thread_data_mid s idx curId alive).1 idx).retired_ with
                  blocks := (record_at
                      (smr.free_thread_data_mid s idx curId alive).1 idx).retired_.blocks.take
                    ((record_at
                      (smr.free_thread_data_mid s idx curId alive).1 idx).retired_.current_block_ + 1),
                  block_count_ := (record_at
                      (smr.free_thread_data_mid s idx curId alive).1 idx).retired_.block_count_
                    - ((record_at
                        (smr.free_thread_data_mid s idx curId alive).1 idx).retired_.blocks.length
                      - ((record_at
                        (smr.free_thread_data_mid s idx curId alive).1 idx).retired_.current_block_ + 1)) } }).thread_list_.length := by
      rw [length_set_record]
      exact hmlen
    rw [record_at_set_self _ _ _ hlen2]
    exact ⟨rfl, rfl, fun htr => absurd htr hemp, fun _ => rfl⟩


set_option maxRecDepth 1000000 in
/-- Witness for C4 at `wit_reg1`: thread 5 detaches (every other thread dead),
so record 0 is scanned, help-scanned and released. -/
theorem free_thread_data_post_witness :
    0 < wit_reg1.thread_list_.length ∧
    ((record_at (smr.free_thread_data wit_reg1 0 5 (fun _ => false)).1 0).m_idOwner = 0 ∧
     (smr.free_thread_data wit_reg1 0 5 (fun _ => false)).2
       = (smr.free_thread_data_mid wit_reg1 0 5 (fun _ => false)).2 ∧
     ((record_at (smr.free_thread_data_mid wit_reg1 0 5 (fun _ => false)).1 0).retired_.empty = true →
       record_at (smr.free_thread_data wit_reg1 0 5 (fun _ => false)).1 0
         = { (record_at (smr.free_thread_data_mid wit_reg1 0 5 (fun _ => false)).1 0) with
               retired_ := (record_at
                 (smr.free_thread_data_mid wit_reg1 0 5 (fun _ => false)).1 0).retired_.fini,
               m_bFree := true,
               m_idOwner := 0 }) ∧
     ((record_at (smr.free_thread_data_mid wit_reg1 0 5 (fun _ => false)).1 0).retired_.empty = false →
       record_at (smr.free_thread_data wit_reg1 0 5 (fun _ => false)).1 0
         = { (record_at (smr.free_thread_data_mid wit_reg1 0 5 (fun _ => false)).1 0) with
               retired_ :=
                 { (record_at (smr.free_thread_data_mid wit_reg1 0 5 (fun _ => false)).1 0).retired_ with
                     blocks := (record_at
                         (smr.free_thread_data_mid wit_reg1 0 5 (fun _ => false)).1 0).retired_.blocks.take
                       ((record_at
                         (smr.free_thread_data_mid wit_reg1 0 5 (fun _ => false)).1 0).retired_.current_block_ + 1),
                     block_count_ := (record_at
                         (smr.free_thread_data_mid wit_reg1 0 5 (fun _ => false)).1 0).retired_.block_count_
                       - ((record_at
                           (smr.free_thread_data_mid wit_reg1 0 5 (fun _ => false)).1 0).retired_.blocks.length
                         - ((record_at
                           (smr.free_thread_data_mid wit_reg1 0 5 (fun _ => false)).1 0).retired_.current_block_ + 1)) },
               m_idOwner := 0 })) :=
  ⟨by decide, free_thread_data_post wit_reg1 0 5 (fun _ => false) (by decide)⟩


/-! ### Claim theorems: Stage 1 hazard collection (C7) -/

theorem foldl_absorb_eq {α β : Type} (g : List α → β → List α) (G : β → List α)
    (hg : ∀ v n, g v n = v ++ G n) (l : List β) : ∀ (vect : List α),
    l.foldl g vect = vect ++ l.flatMap G := by
  induction l with
  | nil =>
    intro vect
    simp
  | cons b t ih =>
    intro vect
    show t.foldl g (g vect b) = vect ++ (b :: t).flatMap G
    rw [hg, ih, List.flatMap_cons, List.append_assoc]

theorem flatMap_congr {α β : Type} (l : List α) (f g : α → List β)
    (h : ∀ a ∈ l, f a = g a) : l.flatMap f = l.flatMap g := by
  induction l with
  | nil => rfl
  | cons a t ih =>
    rw [List.flatMap_cons, List.flatMap_cons, h a (List.mem_cons_self a t),
      ih (fun x hx => h x (List.mem_cons_of_mem a hx))]

theorem flatMap_nonzero_filter (l : List Nat) :
    l.flatMap (fun hp => if hp ≠ 0 then [hp] else [])
      = l.filter (fun hp => decide (hp ≠ 0)) := by
  induction l with
  | nil => rfl
  | cons a t ih =>
    rw [List.flatMap_cons, List.filter_cons, ih]
    by_cases h : a ≠ 0
    · simp [h]
    · simp [h]

theorem copy_hazards_eq (vect arr : List Nat) :
    copy_hazards vect arr = vect ++ arr.filter (fun hp => decide (hp ≠ 0)) := by
  unfold copy_hazards
  rw [foldl_absorb_eq (fun v hp => if hp ≠ 0 then v ++ [hp] else v)
      (fun hp => if hp ≠ 0 then [hp] else [])
      (by
        intro v n
        show (if n ≠ 0 then v ++ [n] else v) = v ++ (if n ≠ 0 then [n] else [])
        by_cases h : n ≠ 0
        · rw [if_pos h, if_pos h]
        · rw [if_neg h, if_neg h]
          simp) arr vect,
    flatMap_nonzero_filter]

theorem collect_record_hazards_eq (vect : List Nat) (n : thread_record) :
    collect_record_hazards vect n
      = vect ++ n.hazards_.array_.filter (fun hp => decide (hp ≠ 0))
          ++ n.hazards_.extended_list_.flatMap
              (fun b => b.filter (fun hp => decide (hp ≠ 0))) := by
  unfold collect_record_hazards
  rw [foldl_absorb_eq (fun v b => copy_hazards v b)
      (fun b => b.filter (fun hp => decide (hp ≠ 0)))
      (fun v b => copy_hazards_eq v b)
      n.hazards_.extended_list_ (copy_hazards vect n.hazards_.array_),
    copy_hazards_eq]

theorem collect_hazards_eq (records : List thread_record) :
    collect_hazards records
      = records.flatMap (fun n =>
          if n.m_idOwner ≠ 0 then
            n.hazards_.array_.filter (fun hp => decide (hp ≠ 0))
              ++ n.hazards_.extended_list_.flatMap
                  (fun b => b.filter (fun hp => decide (hp ≠ 0)))
          else []) := by
  unfold collect_hazards
  rw [foldl_absorb_eq
      (fun v n => if n.m_idOwner ≠ 0 then collect_record_hazards v n else v)
      (fun n => if n.m_idOwner ≠ 0 then
          n.hazards_.array_.filter (fun hp => decide (hp ≠ 0))
            ++ n.hazards_.extended_list_.flatMap
                (fun b => b.filter (fun hp => decide (hp ≠ 0)))
        else [])
      (by
        intro v n
        show (if n.m_idOwner ≠ 0 then collect_record_hazards v n else v)
          = v ++ (if n.m_idOwner ≠ 0 then
              n.hazards_.array_.filter (fun hp => decide (hp ≠ 0))
                ++ n.hazards_.extended_list_.flatMap
                    (fun b => b.filter (fun hp => decide (hp ≠ 0)))
            else [])
        by_cases h : n.m_idOwner ≠ 0
        · rw [if_pos h, if_pos h, collect_record_hazards_eq, List.append_assoc]
        · rw [if_neg h, if_neg h]
          simp) records [],
    List.nil_append]

/-- C7: Stage 1 of every `scan` collects into `plist` exactly the non-null
hazard slot values of the registry records whose owner id is not the null
sentinel — all slots of each such record's initial array and all 16 slots of
each guard block chained on its extended list, in registry order — while
records with null owner contribute nothing; the sorted `plist` the sweep then
uses is precisely this collection sorted. -/
theorem scan_stage1_collects (s : smr)
    (hg : ∀ t ∈ s.thread_list_, ∀ b ∈ t.hazards_.extended_list_,
        b.length = c_extended_guard_block_size) :
    collect_hazards s.thread_list_
      = s.thread_list_.flatMap (fun n =>
          if n.m_idOwner ≠ 0 then
            n.hazards_.array_.filter (fun hp => decide (hp ≠ 0))
              ++ n.hazards_.extended_list_.flatMap
                  (fun b => (b.take c_extended_guard_block_size).filter
                      (fun hp => decide (hp ≠ 0)))
          else []) ∧
    scan_plist s = sort_hazards (collect_hazards s.thread_list_) := by
  refine ⟨?_, rfl⟩
  rw [collect_hazards_eq]
  apply flatMap_congr
  intro n hn
  by_cases h : n.m_idOwner ≠ 0
  · rw [if_pos h, if_pos h]
    congr 1
    apply flatMap_congr
    intro b hb
    rw [← hg n hn b hb, List.take_length]
  · rw [if_neg h, if_neg h]

set_option maxRecDepth 100000 in
/-- Witness for C7 at `wit_ext`: the owned record contributes 10 from its
initial array and 33 from slot 3 of its guard block; the unowned record's 77
is not collected. -/
theorem scan_stage1_collects_witness :
    (∀ t ∈ wit_ext.thread_list_, ∀ b ∈ t.hazards_.extended_list_,
        b.length = c_extended_guard_block_size) ∧
    (collect_hazards wit_ext.thread_list_
       = wit_ext.thread_list_.flatMap (fun n =>
           if n.m_idOwner ≠ 0 then
             n.hazards_.array_.filter (fun hp => decide (hp ≠ 0))
               ++ n.hazards_.extended_list_.flatMap
                   (fun b => (b.take c_extended_guard_block_size).filter
                       (fun hp => decide (hp ≠ 0)))
           else []) ∧
     scan_plist wit_ext = sort_hazards (collect_hazards wit_ext.thread_list_)) :=
  ⟨by decide, scan_stage1_collects wit_ext (by decide)⟩


/-! ### Claim theorems: destructor and destruct (C8, C9) -/

/-- C8: the destructor walks the remaining registry and invokes the deleter
exactly once per live retired pointer of each record — every cell of every
block strictly before `current_block_`, then the cells of `current_block_`
strictly before `current_cell_`, i.e. the `pos`-long flat prefix of the block
list — finalises each record (`fini` leaves the retired array empty, the free
mark is set) and empties the registry; hence `destruct` on a surviving
instance (already detached, `detach_all` not requested again) frees exactly
the outstanding retirees of the whole registry and nulls the instance. -/
theorem destructor_frees_all_live (s : smr)
    (hwf : ∀ t ∈ s.thread_list_, t.retired_.current_cell_ ≤ c_capacity) :
    (smr.dtor s).2 = s.thread_list_.flatMap (fun t => t.retired_.live_cells) ∧
    (smr.dtor s).2
      = s.thread_list_.flatMap (fun t => cells_of t.retired_.blocks 0 t.retired_.pos) ∧
    (smr.dtor s).1.thread_list_ = [] ∧
    (∀ t : thread_record,
      (dtor_process_record t).retired_.empty = true ∧
      (dtor_process_record t).m_bFree = true) ∧
    (∀ curId : Nat, ∀ alive : Nat → Bool,
      (smr.destruct (some s) false curId alive).1 = none ∧
      (smr.destruct (some s) false curId alive).2
        = s.thread_list_.flatMap (fun t => t.retired_.live_cells)) := by
  refine ⟨rfl, ?_, rfl, fun t => ⟨rfl, rfl⟩, fun curId alive => ⟨rfl, rfl⟩⟩
  show s.thread_list_.flatMap (fun t => t.retired_.live_cells)
    = s.thread_list_.flatMap (fun t => cells_of t.retired_.blocks 0 t.retired_.pos)
  apply flatMap_congr
  intro t ht
  rw [live_cells_flat t.retired_ (hwf t ht), cells_of_from_zero]

set_option maxRecDepth 1000000 in
/-- Witness for C8 at `wit_reg1`: the destructor frees the two outstanding
retirees (10, deleter 1) and (20, deleter 2), in traversal order. -/
theorem destructor_frees_all_live_witness :
    (∀ t ∈ wit_reg1.thread_list_, t.retired_.current_cell_ ≤ c_capacity) ∧
    ((smr.dtor wit_reg1).2
       = wit_reg1.thread_list_.flatMap (fun t => t.retired_.live_cells) ∧
     (smr.dtor wit_reg1).2
       = wit_reg1.thread_list_.flatMap
           (fun t => cells_of t.retired_.blocks 0 t.retired_.pos) ∧
     (smr.dtor wit_reg1).1.thread_list_ = [] ∧
     (∀ t : thread_record,
       (dtor_process_record t).retired_.empty = true ∧
       (dtor_process_record t).m_bFree = true) ∧
     (∀ curId : Nat, ∀ alive : Nat → Bool,
       (smr.destruct (some wit_reg1) false curId alive).1 = none ∧
       (smr.destruct (some wit_reg1) false curId alive).2
         = wit_reg1.thread_list_.flatMap (fun t => t.retired_.live_cells))) :=
  ⟨by decide, destructor_frees_all_live wit_reg1 (by decide)⟩

/-- C9: `destruct` when the SMR singleton does not exist is a no-op for either
flag: nothing is freed, no registry is walked, the instance stays null — so a
second `destruct` immediately after a first one is harmless. -/
theorem destruct_without_instance_noop (b : Bool) (curId : Nat) (alive : Nat → Bool)
    (s : smr) :
    smr.destruct none b curId alive = (none, []) ∧
    smr.destruct (smr.destruct (some s) b curId alive).1 b curId alive = (none, []) :=
  ⟨rfl, rfl⟩

/-! ### Claim theorems: detach_thread and tls (C10) -/

/-- C10: for a thread with an attached record, `detach_thread` nulls the
thread-local handle `tls_` strictly before `free_thread_data` runs: the
detach-time scans are executed against the state whose `tls_` is already
`none`, `tls_` is still `none` afterwards, and a call to `tls()` made while
they run fails its non-null assertion (the error value of the model). -/
theorem detach_clears_tls_before_free (ps : proc_state) (idx curId : Nat)
    (alive : Nat → Bool) (h : ps.tls_ = some idx) :
    smr.detach_thread ps curId alive
      = ({ inst := (smr.free_thread_data ps.inst idx curId alive).1, tls_ := none },
         (smr.free_thread_data ps.inst idx curId alive).2) ∧
    ({ ps with tls_ := none } : proc_state).tls_ = none ∧
    smr.tls ({ ps with tls_ := none } : proc_state).tls_ = Except.error () ∧
    (smr.detach_thread ps curId alive).1.tls_ = none := by
  unfold smr.detach_thread
  rw [h]
  exact ⟨rfl, rfl, rfl, rfl⟩

/-- Witness for C10: a process state holding `wit_reg1` with the caller's
handle attached to record 0. -/
theorem detach_clears_tls_before_free_witness :
    ({ inst := wit_reg1, tls_ := some 0 } : proc_state).tls_ = some 0 ∧
    (smr.detach_thread { inst := wit_reg1, tls_ := some 0 } 5 (fun _ => false)
       = ({ inst := (smr.free_thread_data
              ({ inst := wit_reg1, tls_ := some 0 } : proc_state).inst 0 5 (fun _ => false)).1,
            tls_ := none },
          (smr.free_thread_data
            ({ inst := wit_reg1, tls_ := some 0 } : proc_state).inst 0 5 (fun _ => false)).2) ∧
     ({ ({ inst := wit_reg1, tls_ := some 0 } : proc_state) with
          tls_ := none } : proc_state).tls_ = none ∧
     smr.tls ({ ({ inst := wit_reg1, tls_ := some 0 } : proc_state) with
          tls_ := none } : proc_state).tls_ = Except.error () ∧
     (smr.detach_thread { inst := wit_reg1, tls_ := some 0 } 5 (fun _ => false)).1.tls_
       = none) :=
  ⟨rfl, detach_clears_tls_before_free
    { inst := wit_reg1, tls_ := some 0 } 0 5 (fun _ => false) rfl⟩

end Dhp
